import Mathlib

/-!
Verification of the ccl_mozilla_reader library (a forensic reader for Mozilla
Firefox profile artifacts) against its natural-language specification.

The Python sources are shallowly embedded: byte streams become explicit
`ByteStream` states (a byte list plus a cursor), fallible code returns
`Except`, machine integers become `Nat`/`Int` with explicit masking, and
IEEE doubles are kept as their raw 64-bit patterns (the reader never
computes with them, it only repackages bits).  Each definition mirrors one
Python function and is named after it.
-/

namespace MozReader

/-- A byte is modelled as a `Nat`; bytes obtained from real streams are < 256. -/
abbrev Byte := Nat

/-- State of an `io.BytesIO` style seekable stream: the underlying bytes and
the cursor.  The cursor may lie beyond the end of the data (Python permits
seeking past the end; reads there return nothing). -/
structure ByteStream where
  data : List Byte
  pos : Nat
  deriving Repr, DecidableEq

namespace ByteStream

/-- Python `stream.read(n)`: returns up to `n` bytes from the cursor and
advances the cursor by the number of bytes actually returned. -/
def readUpTo (s : ByteStream) (n : Nat) : List Byte × ByteStream :=
  let chunk := (s.data.drop s.pos).take n
  (chunk, { s with pos := s.pos + chunk.length })

/-- Number of bytes between the cursor and the end of the stream. -/
def remaining (s : ByteStream) : Nat := s.data.length - s.pos

end ByteStream

/-! ## BinaryReader (ccl_moz_cache.py)

`BinaryReader` wraps a seekable stream.  `can_read` is embedded exactly as
written: it reads up to `count` bytes, seeks back by the number of bytes it
obtained, and reports whether it obtained exactly `count` bytes. -/

namespace BinaryReader

/-- Embedding of `BinaryReader.can_read`: `tmp = stream.read(count)`,
`stream.seek(-len(tmp), SEEK_CUR)`, return `len(tmp) == count`.
Returns the reported Bool together with the stream state after the call. -/
def can_read (s : ByteStream) (count : Nat) : Bool × ByteStream :=
  let (tmp, s₁) := s.readUpTo count
  let s₂ : ByteStream := { s₁ with pos := s₁.pos - tmp.length }
  (tmp.length == count, s₂)

end BinaryReader

end MozReader

/-! ## Claim C9 -/

/-- C9: `BinaryReader.can_read(n)` is a pure peek: for every stream state it
returns `true` exactly when at least `n` bytes remain before the end of the
stream, and the stream position after the call equals the position before
the call, whether it returns `true` or `false`. -/
theorem C9_can_read_pure_peek (s : MozReader.ByteStream) (n : Nat) :
    (MozReader.BinaryReader.can_read s n).1 = decide (n ≤ s.remaining) ∧
    (MozReader.BinaryReader.can_read s n).2 = s := by
  simp only [MozReader.BinaryReader.can_read, MozReader.ByteStream.readUpTo,
    MozReader.ByteStream.remaining]
  constructor
  · simp only [List.length_take, List.length_drop]
    rw [Bool.eq_iff_iff]
    simp only [beq_iff_eq, decide_eq_true_eq]
    omega
  · cases s with
    | mk d p =>
      simp only [MozReader.ByteStream.mk.injEq, List.length_take, List.length_drop]
      exact ⟨trivial, by omega⟩

/-! ## IndexedDB key decoder (ccl_moz_indexeddb_key.py)

Embedding of `_IdbKeyReader` and `MozillaIdbKey`.  Key tag constants are
`TOKEN_Terminator = 0x00`, `TOKEN_Float = 0x10`, `TOKEN_Date = 0x20`,
`TOKEN_String = 0x30`, `TOKEN_Binary = 0x40`, `TOKEN_Array = 0x50`.
Floats and dates are kept as the sign branch taken plus the 8 raw
big-endian bytes (zero padded), exactly the information the Python code
feeds to `struct.unpack`. -/

namespace MozReader.IdbKey

def TOKEN_Terminator : Nat := 0
def TOKEN_Float : Nat := 0x10
def TOKEN_Date : Nat := 0x20
def TOKEN_String : Nat := 0x30
def TOKEN_Binary : Nat := 0x40
def TOKEN_Array : Nat := 0x50

/-- Values produced by `_IdbKeyReader.read`.  `pynone` stands for the Python
`None` that `_read_token` returns implicitly when no branch of its
`if`/`elif` chain matches the token. -/
inductive IdbValue where
  | strV (cps : List Nat)
  | bytesV (bs : List MozReader.Byte)
  | floatV (neg : Bool) (raw : List MozReader.Byte)
  | dateV (neg : Bool) (raw : List MozReader.Byte)
  | tupleV (xs : List IdbValue)
  | pynone

/-- Exceptions of the key reader.  `terminator` and `endOfTokens` are the
control-flow exceptions `TerminatorEncountered` / `EndOfTokens`;
`indexError` is an out-of-range `data[i]` access in `_read_string`;
`valueError` is a `chr`/`bytes` failure on an out-of-range scalar. -/
inductive IdbErr where
  | terminator
  | endOfTokens
  | indexError
  | valueError
  | fuelOut
  deriving Repr, DecidableEq

/-- Embedding of `_IdbKeyReader._read_until_nul`: collect bytes until a NUL
byte or the end of the stream; both the collected run and the stream state
after the loop (cursor past the NUL, or at the end) are returned. -/
def read_until_nul : List MozReader.Byte → List MozReader.Byte × Nat
  | [] => ([], 0)
  | b :: rest =>
    if b = 0 then ([], 1)
    else
      let (run, used) := read_until_nul rest
      (b :: run, used + 1)

/-- Decoding loop of `_IdbKeyReader._read_string` over the NUL-free run:
1-byte form is `codepoint + 1`; 2-byte form `10xxxxxx xxxxxxxx` has `0x7F`
subtracted; 3-byte form `11xxxxxx xxxxxxxx xx000000` is shifted down 6.
A multi-byte form cut short by the end of the run raises `IndexError`;
a 2-byte scalar below `0x7F` would make `chr`/`bytes` raise. -/
def decodeKeyString (is_binary : Bool) : List MozReader.Byte → Except IdbErr (List Nat)
  | [] => .ok []
  | b1 :: rest =>
    if b1 &&& 0b10000000 = 0 then do
      let tail ← decodeKeyString is_binary rest
      pure ((b1 - 1) :: tail)
    else if b1 &&& 0b11000000 = 0b10000000 then
      match rest with
      | [] => .error .indexError
      | b2 :: rest2 => do
        let v : Nat := ((b1 &&& 0b00111111) <<< 8) ||| b2
        if v < 0x7f then .error .valueError
        else do
          let tail ← decodeKeyString is_binary rest2
          pure ((v - 0x7f) :: tail)
    else
      match rest with
      | [] => .error .indexError
      | [_] => .error .indexError
      | b2 :: b3 :: rest3 => do
        let v : Nat := (((b1 &&& 0b00111111) <<< 16) ||| (b2 <<< 8) ||| (b3 &&& 0b11000000)) >>> 6
        let tail ← decodeKeyString is_binary rest3
        pure (v :: tail)

/-- Embedding of `_IdbKeyReader._read_string`: read the NUL-terminated run
then decode it; the binary variant finally rebuilds a `bytes` object, which
requires every scalar to be below 256. -/
def read_string (is_binary : Bool) (s : ByteStream) : Except IdbErr (IdbValue × ByteStream) := do
  let (run, used) := read_until_nul (s.data.drop s.pos)
  let s' : ByteStream := { s with pos := s.pos + used }
  let chars ← decodeKeyString is_binary run
  if is_binary then
    if chars.all (· < 256) then .ok (.bytesV chars, s')
    else .error .valueError
  else .ok (.strV chars, s')

/-- Embedding of `_IdbKeyReader._read_float`: read up to 8 bytes, pad with
trailing zero bytes, then branch on the top bit of byte 0 (set: clear it and
read a positive double; clear: the double is negated). -/
def read_float (s : ByteStream) : (Bool × List MozReader.Byte) × ByteStream :=
  let (raw, s') := s.readUpTo 8
  let padded := raw ++ List.replicate (8 - raw.length) 0
  let b0 := padded.headI
  if b0 &&& 0x80 ≠ 0 then ((false, (b0 &&& 0x7f) :: padded.tail), s')
  else ((true, padded), s')

mutual

/-- Embedding of `_IdbKeyReader._read_token`'s dispatch on a tag byte.
Note that no branch tests `TOKEN_Binary` (0x40): such a token falls off the
`if`/`elif` chain and the Python function returns `None`. -/
def read_token (fuel : Nat) (token : Nat) (s : ByteStream) :
    Except IdbErr (IdbValue × ByteStream) :=
  match fuel with
  | 0 => .error .fuelOut
  | fuel + 1 =>
    if token = TOKEN_Terminator then .error .terminator
    else if token = TOKEN_Float then
      let ((neg, raw), s') := read_float s
      .ok (.floatV neg raw, s')
    else if token = TOKEN_Date then
      let ((neg, raw), s') := read_float s
      .ok (.dateV neg raw, s')
    else if token = TOKEN_String then read_string false s
    else if TOKEN_Array ≤ token then do
      let next := token - TOKEN_Array
      let (first, s₁) ←
        if TOKEN_Terminator < next then do
          let (v, s') ← read_token fuel next s
          pure (([v] : List IdbValue), s')
        else pure (([] : List IdbValue), s)
      readArrayItems fuel s₁ first
    else
      -- No branch matches (this includes TOKEN_Binary): Python returns None.
      .ok (.pynone, s)

/-- The accumulation loop inside the array branch of `_read_token`:
`read()` repeatedly, appending results, until `EndOfTokens` or
`TerminatorEncountered` turns the accumulator into a tuple. -/
def readArrayItems (fuel : Nat) (s : ByteStream) (acc : List IdbValue) :
    Except IdbErr (IdbValue × ByteStream) :=
  match fuel with
  | 0 => .error .fuelOut
  | fuel + 1 =>
    match idbRead fuel s with
    | .error .endOfTokens => .ok (.tupleV acc, s)
    | .error .terminator => .ok (.tupleV acc, s)
    | .error e => .error e
    | .ok (v, s') => readArrayItems fuel s' (acc ++ [v])

/-- Embedding of `_IdbKeyReader.read`: read one tag byte (end of stream
raises `EndOfTokens`) and dispatch. -/
def idbRead (fuel : Nat) (s : ByteStream) : Except IdbErr (IdbValue × ByteStream) :=
  match fuel with
  | 0 => .error .fuelOut
  | fuel + 1 =>
    match s.data.get? s.pos with
    | none => .error .endOfTokens
    | some token => read_token fuel token { s with pos := s.pos + 1 }

end

/-- Reading a full key buffer as `MozillaIdbKey.from_bytes` does, with fuel
ample for the buffer (each consumed fuel unit either consumes a byte or
strictly decreases an embedded array tag, so `8 * length + 16` suffices for
any real key; the concrete claims below evaluate it directly). -/
def readKeyBuffer (raw : List MozReader.Byte) : Except IdbErr (IdbValue × ByteStream) :=
  idbRead (8 * raw.length + 16) ⟨raw, 0⟩

/-- Embedding of the `MozillaIdbKey` object: the decoded value and the raw
key bytes it was read from. -/
structure MozillaIdbKey where
  value : IdbValue
  raw_value : List MozReader.Byte

/-- The single error kind of `MozillaIdbKey.__eq__`. -/
inductive CmpErr where
  | typeError
  deriving Repr, DecidableEq

/-- An operand handed to `MozillaIdbKey.__eq__`: either another
`MozillaIdbKey` or a Python value of any other type (abstracted by `β`). -/
inductive PyOperand (β : Type) where
  | key (k : MozillaIdbKey)
  | other (b : β)

/-- Embedding of `MozillaIdbKey.__eq__`: raw-bytes comparison against
another key, `TypeError` against anything else. -/
def idbKeyEq {β : Type} (a : MozillaIdbKey) (o : PyOperand β) : Except CmpErr Bool :=
  match o with
  | .key b => .ok (a.raw_value == b.raw_value)
  | .other _ => .error .typeError

/-- Embedding of `MozillaIdbKey.__ne__`: `not self == other`, so the
`TypeError` of `__eq__` propagates. -/
def idbKeyNe {β : Type} (a : MozillaIdbKey) (o : PyOperand β) : Except CmpErr Bool := do
  let e ← idbKeyEq a o
  pure (!e)

/-- Embedding of `MozillaIdbKey.__hash__`: it hashes the raw key bytes with
Python's `bytes.__hash__`, abstracted here as an arbitrary function `h` of
the raw bytes. -/
def idbKeyHash (h : List MozReader.Byte → Int) (a : MozillaIdbKey) : Int :=
  h a.raw_value

end MozReader.IdbKey

/-! ## Claim C2 -/

/-- C2 (code bug): the spec says a key whose first tag byte is the Binary
tag (0x40) decodes to the raw bytes of the NUL-terminated run, but
`_IdbKeyReader._read_token` has no branch for `TOKEN_Binary`, so the byte
sequence `40 42 00` decodes to Python `None` with only the tag byte
consumed, instead of the single byte `0x41` (`b"A"`); the `is_binary`
decoding path of `_read_string` that the spec describes is never invoked. -/
theorem C2_binary_tag_returns_none :
    MozReader.IdbKey.readKeyBuffer [0x40, 0x42, 0x00] =
      .ok (.pynone, ⟨[0x40, 0x42, 0x00], 1⟩) ∧
    MozReader.IdbKey.read_string true ⟨[0x40, 0x42, 0x00], 1⟩ =
      .ok (.bytesV [0x41], ⟨[0x40, 0x42, 0x00], 3⟩) := by
  constructor <;> rfl

/-! ## Claim C10 -/

/-- C10: `MozillaIdbKey` equality and hashing are determined solely by the
raw key bytes when both operands are `MozillaIdbKey` instances (the decoded
`value` fields play no role), and comparing with a value of any other type
raises `TypeError` rather than returning a Boolean. -/
theorem C10_idb_key_eq_hash (β : Type) (o : β) (k k' : MozReader.IdbKey.MozillaIdbKey)
    (h : List MozReader.Byte → Int) :
    MozReader.IdbKey.idbKeyEq k
        (MozReader.IdbKey.PyOperand.key k' : MozReader.IdbKey.PyOperand β) =
      .ok (k.raw_value == k'.raw_value) ∧
    MozReader.IdbKey.idbKeyEq k (MozReader.IdbKey.PyOperand.other o : MozReader.IdbKey.PyOperand β) =
      .error .typeError ∧
    (k.raw_value = k'.raw_value →
      MozReader.IdbKey.idbKeyHash h k = MozReader.IdbKey.idbKeyHash h k') := by
  refine ⟨rfl, rfl, fun hr => ?_⟩
  simp [MozReader.IdbKey.idbKeyHash, hr]

/-- Witness for C10 at concrete keys: two keys with the same raw bytes but
different decoded values compare equal and hash identically, and comparison
with a non-key operand errors. -/
theorem C10_idb_key_eq_hash_witness :
    (MozReader.IdbKey.idbKeyEq ⟨.pynone, [1, 2]⟩
        (MozReader.IdbKey.PyOperand.key ⟨.strV [65], [1, 2]⟩ :
          MozReader.IdbKey.PyOperand Nat) = .ok true) ∧
    (MozReader.IdbKey.idbKeyEq ⟨.pynone, [1, 2]⟩
        (MozReader.IdbKey.PyOperand.other (0 : Nat)) = .error .typeError) ∧
    MozReader.IdbKey.idbKeyHash (fun l => (l.length : Int)) ⟨.pynone, [1, 2]⟩ =
      MozReader.IdbKey.idbKeyHash (fun l => (l.length : Int)) ⟨.strV [65], [1, 2]⟩ := by
  have h := C10_idb_key_eq_hash Nat 0 ⟨.pynone, [1, 2]⟩ ⟨.strV [65], [1, 2]⟩
      (fun l => (l.length : Int))
  exact ⟨h.1, h.2.1, h.2.2 rfl⟩

/-! ## Cache-key parser (ccl_moz_cache.py, class CacheKey)

Embedding of `CacheKey._read_value` and `CacheKey._read_tags`.  The raw key
is an ASCII string; `CacheKey.__init__` encodes it to ASCII bytes and the
tag loop walks those bytes.  Characters are identified by their ASCII codes
(`','` = 44, `':'` = 58, `'O'` = 79, `'a'` = 97, `'p'` = 112, `'~'` = 126). -/

namespace MozReader.CacheKey

/-- Parsed fields of a cache key. -/
structure Fields where
  url : Option (List Nat)
  origin_suffix : Option (List Nat)
  id_enhance : Option (List Nat)
  is_anon : Bool
  sync_with_private_browsing : Bool
  deriving Repr, DecidableEq

/-- The initial field values set in `CacheKey.__init__`. -/
def Fields.init : Fields := ⟨none, none, none, false, false⟩

/-- Errors raised while parsing a cache key (all are `ValueError` in the
Python source; they are distinguished here by their message). -/
inductive KeyErr where
  | unexpectedEnd
  | unexpectedTag
  | expectedComma
  | nonAscii
  | fuelOut
  deriving Repr, DecidableEq

/-- Embedding of `CacheKey._read_value`: collect bytes of a value; a comma
followed by another comma is an escaped comma; a comma followed by anything
else ends the value, with the stream seeked back onto that comma; running
out of bytes mid-value (including right after a comma) is an error. -/
def read_value (fuel : Nat) (s : ByteStream) (acc : List Byte) :
    Except KeyErr (List Byte × ByteStream) :=
  match fuel with
  | 0 => .error .fuelOut
  | fuel + 1 =>
    match s.data.get? s.pos with
    | none => .error .unexpectedEnd
    | some c =>
      if c = 44 then
        match s.data.get? (s.pos + 1) with
        | none => .error .unexpectedEnd
        | some c2 =>
          if c2 = 44 then read_value fuel { s with pos := s.pos + 2 } (acc ++ [44])
          else .ok (acc, s)  -- seek back past the check and the comma
      else read_value fuel { s with pos := s.pos + 1 } (acc ++ [c])

/-- Embedding of `CacheKey._read_tags`: iterate tag bytes.  `':'` makes the
remainder the URL; `'O'` and `'~'` read a value; `'p'` and `'a'` set flags;
anything else is an error; after every non-final tag a single comma
separator is mandatory. -/
def read_tags (fuel : Nat) (s : ByteStream) (st : Fields) : Except KeyErr Fields :=
  match fuel with
  | 0 => .error .fuelOut
  | fuel + 1 =>
    match s.data.get? s.pos with
    | none => .ok st
    | some tag =>
      if tag = 58 then .ok { st with url := some (s.data.drop (s.pos + 1)) }
      else do
        let (st', s') ←
          if tag = 79 then do
            let (v, s₂) ← read_value fuel { s with pos := s.pos + 1 } []
            pure ({ st with origin_suffix := some v }, s₂)
          else if tag = 112 then
            pure ({ st with sync_with_private_browsing := true },
              { s with pos := s.pos + 1 })
          else if tag = 97 then
            pure ({ st with is_anon := true }, { s with pos := s.pos + 1 })
          else if tag = 126 then do
            let (v, s₂) ← read_value fuel { s with pos := s.pos + 1 } []
            pure ({ st with id_enhance := some v }, s₂)
          else .error .unexpectedTag
        match s'.data.get? s'.pos with
        | some 44 => read_tags fuel { s' with pos := s'.pos + 1 } st'
        | _ => .error .expectedComma

/-- Embedding of `CacheKey.__init__` applied to a raw key given as a list of
code points: encode to ASCII (code points must be < 128) and run the tag
loop.  The fuel `2 * length + 8` dominates the parse's call depth: every
`read_tags` level consumes at least two bytes and every `read_value` level
at least one, so the nesting depth never reaches the fuel. -/
def parse (cps : List Nat) : Except KeyErr Fields :=
  if cps.all (· < 128) then read_tags (2 * cps.length + 8) ⟨cps, 0⟩ Fields.init
  else .error .nonAscii

end MozReader.CacheKey

/-! ## Claim C3 -/

/-- C3 counterexample: parsing the raw cache key `"O,foo,,bar,"` does not
succeed.  The value of the `O` tag ends at the first comma (which is
followed by `'f'`, not another comma), so `origin_suffix` would be empty and
the parser then hits `'f'` where a tag byte is expected and raises
`ValueError`, instead of returning `origin_suffix == "foo,bar"`. -/
theorem C3_escaped_comma_counterexample :
    MozReader.CacheKey.parse
        [79, 44, 102, 111, 111, 44, 44, 98, 97, 114, 44] =
      .error .unexpectedTag := by
  rfl

/-- C3 (amended): in a raw cache key the value of an `O` tag follows the tag
byte directly (no comma between tag and value); within it a doubled comma is
an escaped comma and the value ends at a comma not followed by another
comma.  Parsing the raw key `"Ofoo,,bar,:"` succeeds with
`origin_suffix == "foo,bar"` (and the empty remainder as the URL). -/
theorem C3_escaped_comma_amended :
    MozReader.CacheKey.parse
        [79, 102, 111, 111, 44, 44, 98, 97, 114, 44, 58] =
      .ok ⟨some [], some [102, 111, 111, 44, 98, 97, 114], none, false, false⟩ := by
  rfl

/-! ## Sparse-array expansion (ccl_moz_structured_clone_reader.py, unsparse_array)

Embedding of the module-level function `unsparse_array(result, length,
sparse_dict, default)`.  The Python function mutates and returns the caller
supplied `result` list (except on the empty-dict early return, where it
returns a fresh empty list); the embedding returns the resulting list.  The
sparse dict is modelled as an association list with `Int` keys in insertion
order; Python dict keys are unique, which the general claim below carries as
a `Nodup` hypothesis. -/

namespace MozReader.SC

/-- Errors of `unsparse_array` (both are `ValueError` in the source). -/
inductive UnsparseErr where
  | keyNotNonNegativeInt
  | lengthTooLowForMaxKey
  deriving Repr, DecidableEq

/-- Python `max(sparse_dict.keys())` over a non-empty association list. -/
def maxKey {α : Type} : List (Int × α) → Int
  | [] => 0
  | kv :: rest => rest.foldl (fun m p => max m p.1) kv.1

/-- Embedding of `unsparse_array`: empty dict returns the empty list; a
negative key or a maximal key at or beyond `length` is an error; otherwise
the result is `length` copies of the default with every keyed slot
overwritten by its value. -/
def unsparse_array {α : Type} (length : Nat) (sparse : List (Int × α)) (d : α) :
    Except UnsparseErr (List α) :=
  if sparse.isEmpty then .ok []
  else if sparse.any (fun kv => kv.1 < 0) then .error .keyNotNonNegativeInt
  else if (length : Int) ≤ maxKey sparse then .error .lengthTooLowForMaxKey
  else .ok (sparse.foldl (fun acc kv => acc.set kv.1.toNat kv.2) (List.replicate length d))

theorem foldl_set_length {α : Type} (l : List (Int × α)) (init : List α) :
    (l.foldl (fun acc kv => acc.set kv.1.toNat kv.2) init).length = init.length := by
  induction l generalizing init with
  | nil => rfl
  | cons kv rest ih => simp [List.foldl_cons, ih, List.length_set]

theorem foldl_set_get_out {α : Type} (l : List (Int × α)) (init : List α) (i : Nat)
    (h : ∀ kv ∈ l, kv.1.toNat ≠ i) :
    (l.foldl (fun acc kv => acc.set kv.1.toNat kv.2) init)[i]? = init[i]? := by
  induction l generalizing init with
  | nil => rfl
  | cons kv rest ih =>
    rw [List.foldl_cons, ih _ (fun p hp => h p (List.mem_cons_of_mem kv hp)),
      List.getElem?_set_ne (h kv (List.mem_cons_self kv rest))]

theorem foldl_set_get_in {α : Type} (l : List (Int × α)) (init : List α)
    (hnodup : (l.map Prod.fst).Nodup) (hnn : ∀ kv ∈ l, 0 ≤ kv.1)
    (hbound : ∀ kv ∈ l, kv.1.toNat < init.length) :
    ∀ kv ∈ l, (l.foldl (fun acc kv => acc.set kv.1.toNat kv.2) init)[kv.1.toNat]? = some kv.2 := by
  induction l generalizing init with
  | nil => intro kv hkv; cases hkv
  | cons hd rest ih =>
    intro kv hkv
    rw [List.map_cons, List.nodup_cons] at hnodup
    rcases List.mem_cons.mp hkv with rfl | hmem
    · rw [List.foldl_cons, foldl_set_get_out]
      · exact List.getElem?_set_self (hbound kv (List.mem_cons_self kv rest))
      · intro p hp hEq
        apply hnodup.1
        have hp1 : p.1 = kv.1 := by
          have h1 := hnn p (List.mem_cons_of_mem kv hp)
          have h2 := hnn kv (List.mem_cons_self kv rest)
          omega
        rw [← hp1]
        exact List.mem_map_of_mem Prod.fst hp
    · rw [List.foldl_cons]
      exact ih _ hnodup.2 (fun p hp => hnn p (List.mem_cons_of_mem hd hp))
        (fun p hp => by rw [List.length_set]; exact hbound p (List.mem_cons_of_mem hd hp))
        kv hmem

theorem maxKey_lt {α : Type} (L : Int) :
    ∀ (l : List (Int × α)), l ≠ [] → (∀ kv ∈ l, kv.1 < L) → maxKey l < L := by
  intro l hne hlt
  match l with
  | kv :: rest =>
    unfold maxKey
    have : ∀ (r : List (Int × α)) (init : Int), init < L → (∀ p ∈ r, p.1 < L) →
        r.foldl (fun m p => max m p.1) init < L := by
      intro r
      induction r with
      | nil => intro init h _; exact h
      | cons p rs ih =>
        intro init h hall
        rw [List.foldl_cons]
        exact ih _ (max_lt h (hall p (List.mem_cons_self p rs)))
          (fun q hq => hall q (List.mem_cons_of_mem p hq))
    exact this rest kv.1 (hlt kv (List.mem_cons_self kv rest))
      (fun q hq => hlt q (List.mem_cons_of_mem kv hq))

end MozReader.SC

/-! ## Claim C1 -/

/-- C1 counterexample: with an empty sparse dict and positive length,
`unsparse_array` takes its early-return branch and yields the empty list
rather than a list of `length` defaults: `unsparse_array(result, 1, {},
Undefined)` returns `[]`, which does not contain exactly 1 entry. -/
theorem C1_unsparse_empty_counterexample :
    MozReader.SC.unsparse_array 1 ([] : List (Int × Nat)) 7 = .ok [] ∧
    ([] : List Nat).length ≠ 1 := by
  exact ⟨rfl, by decide⟩

/-- C1 (amended): for every call to `unsparse_array(result, length,
sparse_dict, default)` in which `sparse_dict` is non-empty and every key is
a non-negative integer strictly below `length`, the call succeeds and the
returned list contains exactly `length` entries, where every index present
in `sparse_dict` holds its mapped value and every index not present holds
the default.  (When `sparse_dict` is empty the function instead returns the
empty list regardless of `length`.) -/
theorem C1_unsparse_array_dense {α : Type} (length : Nat) (sparse : List (Int × α)) (d : α)
    (hne : sparse ≠ [])
    (hkeys : ∀ kv ∈ sparse, 0 ≤ kv.1 ∧ kv.1 < (length : Int))
    (hnodup : (sparse.map Prod.fst).Nodup) :
    ∃ l, MozReader.SC.unsparse_array length sparse d = .ok l ∧
      l.length = length ∧
      (∀ kv ∈ sparse, l[kv.1.toNat]? = some kv.2) ∧
      (∀ i, i < length → (∀ kv ∈ sparse, kv.1.toNat ≠ i) → l[i]? = some d) := by
  have hnn : ∀ kv ∈ sparse, 0 ≤ kv.1 := fun kv h => (hkeys kv h).1
  have hlt : ∀ kv ∈ sparse, kv.1 < (length : Int) := fun kv h => (hkeys kv h).2
  refine ⟨sparse.foldl (fun acc kv => acc.set kv.1.toNat kv.2) (List.replicate length d),
    ?_, ?_, ?_, ?_⟩
  · unfold MozReader.SC.unsparse_array
    rw [if_neg (by simpa [List.isEmpty_iff] using hne)]
    rw [if_neg (by
      simp only [List.any_eq_true, decide_eq_true_eq, not_exists, not_and]
      intro kv hkv
      exact not_lt.mpr (hnn kv hkv))]
    rw [if_neg (not_le.mpr (MozReader.SC.maxKey_lt _ sparse hne hlt))]
  · rw [MozReader.SC.foldl_set_length, List.length_replicate]
  · intro kv hkv
    refine MozReader.SC.foldl_set_get_in sparse _ hnodup hnn ?_ kv hkv
    intro p hp
    rw [List.length_replicate]
    have h1 := hnn p hp
    have h2 := hlt p hp
    omega
  · intro i hi hout
    rw [MozReader.SC.foldl_set_get_out sparse _ i hout,
      List.getElem?_replicate, if_pos hi]

/-- Witness for C1 at a concrete call: length 3 with keys 0 and 2 present
produces `[10, 0, 20]` with the default 0 at the absent index 1. -/
theorem C1_unsparse_array_dense_witness :
    ∃ l, MozReader.SC.unsparse_array 3 [((0 : Int), 10), (2, 20)] (0 : Nat) = .ok l ∧
      l.length = 3 ∧
      (∀ kv ∈ [((0 : Int), 10), ((2 : Int), 20)], l[kv.1.toNat]? = some kv.2) ∧
      (∀ i, i < 3 → (∀ kv ∈ [((0 : Int), 10), ((2 : Int), 20)], kv.1.toNat ≠ i) →
        l[i]? = some 0) :=
  C1_unsparse_array_dense 3 [((0 : Int), 10), (2, 20)] 0 (by decide)
    (by decide) (by decide)

/-! ## Text codecs shared by the cache and structured-clone readers

Strict UTF-8 decoding as Python's `bytes.decode("utf-8")` performs it:
continuation bytes must be `80..BF`, overlong forms, surrogates and values
beyond `0x10FFFF` are rejected.  The result is the list of code points. -/

namespace MozReader

def utf8Decode : List Byte → Option (List Nat)
  | [] => some []
  | b1 :: t1 =>
    if b1 < 0x80 then (utf8Decode t1).map (b1 :: ·)
    else if b1 < 0xC2 then none
    else if b1 < 0xE0 then
      match t1 with
      | b2 :: t2 =>
        if 0x80 ≤ b2 ∧ b2 < 0xC0 then
          (utf8Decode t2).map ((((b1 - 0xC0) <<< 6) + (b2 - 0x80)) :: ·)
        else none
      | [] => none
    else if b1 < 0xF0 then
      match t1 with
      | b2 :: b3 :: t3 =>
        if (if b1 = 0xE0 then 0xA0 ≤ b2 ∧ b2 < 0xC0
            else if b1 = 0xED then 0x80 ≤ b2 ∧ b2 < 0xA0
            else 0x80 ≤ b2 ∧ b2 < 0xC0) ∧ 0x80 ≤ b3 ∧ b3 < 0xC0 then
          (utf8Decode t3).map
            ((((b1 - 0xE0) <<< 12) + ((b2 - 0x80) <<< 6) + (b3 - 0x80)) :: ·)
        else none
      | _ => none
    else if b1 < 0xF5 then
      match t1 with
      | b2 :: b3 :: b4 :: t4 =>
        if (if b1 = 0xF0 then 0x90 ≤ b2 ∧ b2 < 0xC0
            else if b1 = 0xF4 then 0x80 ≤ b2 ∧ b2 < 0x90
            else 0x80 ≤ b2 ∧ b2 < 0xC0) ∧ 0x80 ≤ b3 ∧ b3 < 0xC0 ∧ 0x80 ≤ b4 ∧ b4 < 0xC0 then
          (utf8Decode t4).map
            ((((b1 - 0xF0) <<< 18) + ((b2 - 0x80) <<< 12) + ((b3 - 0x80) <<< 6) + (b4 - 0x80)) :: ·)
        else none
      | _ => none
    else none

/-- Little-endian unsigned integer value of a byte list. -/
def leU (bs : List Byte) : Nat := bs.foldr (fun b acc => b + 256 * acc) 0

/-- Big-endian unsigned integer value of a byte list. -/
def beU (bs : List Byte) : Nat := bs.foldl (fun acc b => 256 * acc + b) 0

/-- Two's-complement reading of a `w`-byte unsigned value. -/
def toSigned (w : Nat) (v : Nat) : Int :=
  if v < 2 ^ (8 * w - 1) then (v : Int) else (v : Int) - 2 ^ (8 * w)

/-- Accumulator loop splitting a byte list into `w`-sized chunks. -/
def chunkAux (w : Nat) : List Byte → List Byte → List (List Byte)
  | [], cur => if cur.isEmpty then [] else [cur]
  | b :: rest, cur =>
    if cur.length + 1 = w then (cur ++ [b]) :: chunkAux w rest []
    else chunkAux w rest (cur ++ [b])

/-- Split a byte list into `w`-sized chunks (`w > 0`; the byte lists handed
to it always have a multiple of `w` bytes). -/
def chunkEvery (w : Nat) (bs : List Byte) : List (List Byte) :=
  if w = 0 then [] else chunkAux w bs []

/-- Group bytes into little-endian 16-bit code units as `utf-16-le` sees
them (inputs always have even length). -/
def utf16Units (bs : List Byte) : List Nat := (chunkEvery 2 bs).map leU

/-- Combine UTF-16 code units into code points, rejecting lone surrogates as
Python's strict `utf-16-le` decoding does. -/
def utf16Combine : List Nat → Option (List Nat)
  | [] => some []
  | u :: rest =>
    if u < 0xD800 ∨ 0xE000 ≤ u then (utf16Combine rest).map (u :: ·)
    else if u < 0xDC00 then
      match rest with
      | u2 :: rest2 =>
        if 0xDC00 ≤ u2 ∧ u2 < 0xE000 then
          (utf16Combine rest2).map ((0x10000 + ((u - 0xD800) <<< 10) + (u2 - 0xDC00)) :: ·)
        else none
      | [] => none
    else none

/-- Python `bytes.decode("utf-16-le")` on the byte level. -/
def utf16leDecode (bs : List Byte) : Option (List Nat) := utf16Combine (utf16Units bs)

end MozReader

/-! ## Structured-clone reader (ccl_moz_structured_clone_reader.py)

The reader is embedded over an explicit state: the stream bytes and cursor,
the header scope, the flattened-object table `_flattened_objects`, and an
instrumentation trace recording, for every back-reference successfully
resolved, its index together with the table size at that moment (the Python
code has no such trace; it observes the bounds check that list indexing
performs and changes no control flow).

Representation choices, all noted against the source:
* IEEE doubles are kept as their 64-bit patterns (`Pair.to_double` only
  repackages `(tag << 32) | data`); dates keep the millisecond double bits
  (the `datetime` conversion, which can additionally fail for NaN or
  out-of-range values, is not modelled, so the model succeeds on a superset
  of the streams Python accepts).
* `re.compile` is not modelled: a RegExp keeps its pattern string.
* Python object identity is represented by index: a resolved back-reference
  is the value `backref i` pointing at slot `i` of the flattened table, the
  finite representation of the (possibly cyclic) object graph.
* `Map` and `Set` keep their entries as insertion-ordered lists; Python's
  dict/set key collapsing (and its `TypeError` on unhashable keys) is not
  modelled. -/

namespace MozReader.SC

/-! Tag constants of `StructuredDataType` used by the reader's dispatch. -/
namespace SDT

def FLOAT_MAX : Nat := 0xFFF00000
def HEADER : Nat := 0xFFF10000
def NULL_TAG : Nat := 0xFFFF0000
def UNDEFINED : Nat := 0xFFFF0001
def BOOLEAN : Nat := 0xFFFF0002
def INT32 : Nat := 0xFFFF0003
def STRING : Nat := 0xFFFF0004
def DATE_OBJECT : Nat := 0xFFFF0005
def REGEXP_OBJECT : Nat := 0xFFFF0006
def ARRAY_OBJECT : Nat := 0xFFFF0007
def OBJECT_OBJECT : Nat := 0xFFFF0008
def ARRAY_BUFFER_OBJECT_V2 : Nat := 0xFFFF0009
def BOOLEAN_OBJECT : Nat := 0xFFFF000A
def STRING_OBJECT : Nat := 0xFFFF000B
def NUMBER_OBJECT : Nat := 0xFFFF000C
def BACK_REFERENCE_OBJECT : Nat := 0xFFFF000D
def TYPED_ARRAY_OBJECT_V2 : Nat := 0xFFFF0010
def MAP_OBJECT : Nat := 0xFFFF0011
def SET_OBJECT : Nat := 0xFFFF0012
def END_OF_KEYS : Nat := 0xFFFF0013
def BIGINT : Nat := 0xFFFF001D
def BIGINT_OBJECT : Nat := 0xFFFF001E
def ARRAY_BUFFER_OBJECT : Nat := 0xFFFF001F
def TYPED_ARRAY_OBJECT : Nat := 0xFFFF0020
def DOM_BLOB : Nat := 0xFFFF8001
def DOM_FILE_WITHOUT_LASTMODIFIEDDATE : Nat := 0xFFFF8002
def DOM_FILELIST : Nat := 0xFFFF8003
def DOM_FILE : Nat := 0xFFFF8005
def DOM_CRYPTOKEY : Nat := 0xFFFF800A

end SDT

/-- Membership test of the `StructuredDataType` enum for tags at or above
`FLOAT_MAX`: `_read_pair` raises `ValueError` for any other value.  The
ranges cover the builtin block `NULL .. GROWABLE_SHARED_ARRAY_BUFFER_OBJECT`,
the v1 typed-array block, the transfer-map block plus
`END_OF_BUILTIN_TYPES`, and the DOM block `DOM_BASE .. DOM_ENCODEDAUDIOCHUNK`. -/
def isValidTag (t : Nat) : Bool :=
  t == 0xFFF00000 || t == 0xFFF10000 ||
  (0xFFFF0000 ≤ t && t ≤ 0xFFFF0024) ||
  (0xFFFF0100 ≤ t && t ≤ 0xFFFF0108) ||
  (0xFFFF0200 ≤ t && t ≤ 0xFFFF0205) ||
  (0xFFFF8000 ≤ t && t ≤ 0xFFFF802B)

/-- A `(data, tag)` pair, both unsigned 32-bit. -/
structure Pair where
  data : Nat
  tag : Nat
  deriving Repr, DecidableEq

/-- One element of a materialized typed array: `struct.unpack` produces
signed or unsigned integers for the integer scalar types and floats (kept
as bit patterns) for `Float32`/`Float64`. -/
inductive TAElem where
  | intE (v : Int)
  | f32E (bits : Nat)
  | f64E (bits : Nat)

/-- Algorithm parameters of a CryptoKey, per `CryptoType` branch.  Note the
source stores the EC named curve as raw (undecoded) bytes. -/
inductive CryptoParams where
  | aes (length : Nat)
  | kdf
  | hmac (length : Nat) (hash : List Nat)
  | rsa (modulus_length : Nat) (public_exponent : List Byte) (hash : List Nat)
  | ec (named_curve : List Byte)
  | ed

/-- The structured-clone value universe. -/
inductive SCValue where
  | null
  | undef
  | boolV (b : Bool)
  | int32 (i : Int)
  | double (bits : Nat)
  | str (cps : List Nat)
  | date (bits : Nat)
  | regexp (cps : List Nat)
  | bigintV (v : Int)
  | backref (idx : Nat)
  | arr (xs : List SCValue)
  | obj (kvs : List (List Nat × SCValue))
  | mapV (kvs : List (SCValue × SCValue))
  | setV (xs : List SCValue)
  | bytesV (bs : List Byte)
  | taList (xs : List TAElem)
  | blob (index size : Nat) (mime : List Nat)
  | file (index size : Nat) (mime : List Nat) (last_modified : Option Nat) (name : List Nat)
  | cryptoKey (sym priv pub : Option (List Byte)) (params : CryptoParams)

/-- Error kinds of the reader (`StructuredCloneReaderError`, `ValueError`,
`TypeError`, `KeyError`, `IndexError`, `NotImplementedError`, Unicode decode
errors, and the `EndOfKeysException` control signal). -/
inductive SCErr where
  | shortRead
  | invalidTag
  | scError
  | valueError
  | typeError
  | keyError
  | indexError
  | notImplemented
  | unicodeError
  | endOfKeys
  | fuelOut
  deriving Repr, DecidableEq

/-- One recorded back-reference resolution: the index in the pair's data
field and the size of the flattened-object table at the moment of the read. -/
structure BackrefEvent where
  idx : Nat
  tableSize : Nat
  deriving Repr, DecidableEq

/-- Full reader state: stream bytes and cursor, header scope, the
flattened-object table, and the back-reference trace. -/
structure SCState where
  data : List Byte
  pos : Nat
  scope : Nat
  table : List SCValue
  events : List BackrefEvent

/-- Computation result carrying the state on both success and failure
(Python exceptions leave the mutated stream/table in place; the
`EndOfKeysException` catchers resume from that state). -/
inductive SCRes (α : Type) where
  | ok (a : α) (st : SCState)
  | err (e : SCErr) (st : SCState)

/-- Sequencing on `SCRes`. -/
def SCRes.andThen {α β : Type} (r : SCRes α) (f : α → SCState → SCRes β) : SCRes β :=
  match r with
  | .err e st => .err e st
  | .ok a st => f a st

/-- Append a value to the flattened-object table
(`self._flattened_objects.append(...)`). -/
def pushTable (v : SCValue) (st : SCState) : SCState :=
  { st with table := st.table ++ [v] }

/-- Embedding of `StructuredCloneReader._read_raw`. -/
def readRaw (n : Nat) (st : SCState) : SCRes (List Byte) :=
  if n ≤ st.data.length - st.pos then
    .ok ((st.data.drop st.pos).take n) { st with pos := st.pos + n }
  else .err .shortRead { st with pos := max st.pos st.data.length }

/-- Embedding of `StructuredCloneReader._read_pair`: 8 bytes little-endian
as `(data:u32, tag:u32)`; a tag at or above `FLOAT_MAX` must be a
`StructuredDataType` member. -/
def readPair (st : SCState) : SCRes Pair :=
  (readRaw 8 st).andThen fun bs st =>
    let d := leU (bs.take 4)
    let t := leU (bs.drop 4)
    if t < SDT.FLOAT_MAX then .ok ⟨d, t⟩ st
    else if isValidTag t then .ok ⟨d, t⟩ st
    else .err .invalidTag st

/-- Embedding of `_read_uint` (4 bytes little-endian, unsigned). -/
def readUint (st : SCState) : SCRes Nat :=
  (readRaw 4 st).andThen fun bs st => .ok (leU bs) st

/-- Embedding of `_read_ulong` (8 bytes little-endian, unsigned). -/
def readUlong (st : SCState) : SCRes Nat :=
  (readRaw 8 st).andThen fun bs st => .ok (leU bs) st

/-- Embedding of `_read_double`: 8 bytes whose little-endian value is the
double's bit pattern. -/
def readDouble (st : SCState) : SCRes Nat :=
  (readRaw 8 st).andThen fun bs st => .ok (leU bs) st

/-- Embedding of `_align`: advance the cursor to the next multiple of 8. -/
def align (st : SCState) : SCState :=
  if st.pos % 8 = 0 then st else { st with pos := st.pos + (8 - st.pos % 8) }

/-- Embedding of `_read_string_internal`: the high bit of the pair's data
selects Latin-1 (set) or UTF-16-LE (clear, byte length doubled); the low 31
bits are the length. -/
def read_string_internal (p : Pair) (st : SCState) : SCRes (List Nat) :=
  if p.tag ≠ SDT.STRING ∧ p.tag ≠ SDT.STRING_OBJECT then .err .scError st
  else if p.data &&& 0x80000000 = 0 then
    (readRaw (2 * (p.data &&& 0x7fffffff)) st).andThen fun bs st =>
      match utf16leDecode bs with
      | some cps => .ok cps st
      | none => .err .unicodeError st
  else
    (readRaw (p.data &&& 0x7fffffff) st).andThen fun bs st => .ok bs st

/-- Embedding of `_read_string`: a pair followed by its string payload. -/
def read_string (st : SCState) : SCRes (List Nat) :=
  (readPair st).andThen fun p st => read_string_internal p st

/-- Embedding of `_read_bigint`: `8 * (data & 0x7FFFFFFF)` little-endian
magnitude bytes, negated when the top bit of data is set. -/
def read_bigint (p : Pair) (st : SCState) : SCRes Int :=
  if p.tag ≠ SDT.BIGINT ∧ p.tag ≠ SDT.BIGINT_OBJECT then .err .valueError st
  else
    (readRaw (8 * (p.data &&& 0x7fffffff)) st).andThen fun bs st =>
      if p.data &&& 0x80000000 ≠ 0 then .ok (-(leU bs : Int)) st
      else .ok ((leU bs : Int)) st

/-- Embedding of `read_structuredclonereader_string`: u32 length, align,
raw bytes, align, UTF-8 decode. -/
def readSCString (st : SCState) : SCRes (List Nat) :=
  (readUint st).andThen fun n st =>
    (readRaw n (align st)).andThen fun bs st =>
      match utf8Decode bs with
      | some cps => .ok cps (align st)
      | none => .err .unicodeError (align st)

end MozReader.SC

namespace MozReader.SC

/-- Element byte width of a scalar type (`_SCALAR_TYPE_ELEMENT_LENGTH`);
`none` for the codes 11..13 that have no entry (a `KeyError` in Python). -/
def elementLength : Nat → Option Nat
  | 0 => some 1
  | 1 => some 1
  | 2 => some 2
  | 3 => some 2
  | 4 => some 4
  | 5 => some 4
  | 6 => some 4
  | 7 => some 8
  | 8 => some 1
  | 9 => some 8
  | 10 => some 8
  | _ => none

/-- Unpack one `element_size`-byte little-endian group per the scalar
type's `struct` code: signed for `b`/`h`/`i`/`q`, unsigned for
`B`/`H`/`I`/`Q`, bit patterns for `f`/`d`. -/
def unpackElem (t : Nat) (chunk : List Byte) : TAElem :=
  if t = 0 then .intE (toSigned 1 (leU chunk))
  else if t = 1 then .intE (leU chunk : Int)
  else if t = 2 then .intE (toSigned 2 (leU chunk))
  else if t = 3 then .intE (leU chunk : Int)
  else if t = 4 then .intE (toSigned 4 (leU chunk))
  else if t = 5 then .intE (leU chunk : Int)
  else if t = 6 then .f32E (leU chunk)
  else if t = 7 then .f64E (leU chunk)
  else if t = 9 then .intE (toSigned 8 (leU chunk))
  else .intE (leU chunk : Int)

/-- Embedding of `ScalarType.data_to_array`: empty data short-circuits to an
empty list; otherwise the available bytes from `start_offset` must cover
`element_count` elements; `Uint8Clamped` returns the raw byte slice, every
other materializable type unpacks `element_count` elements. -/
def data_to_array (t : Nat) (data : List Byte) (element_count start_offset : Nat) :
    Except SCErr SCValue :=
  if data.length = 0 then .ok (.taList [])
  else
    match elementLength t with
    | none => .error .keyError
    | some es =>
      if ((data.length : Int) - start_offset) < (element_count : Int) * es then
        .error .valueError
      else if t = 8 then .ok (.bytesV ((data.drop start_offset).take element_count))
      else .ok (.taList ((chunkEvery es ((data.drop start_offset).take (element_count * es))).map
        (unpackElem t)))

/-- Embedding of `_read_blob`: u64 size, align, length-prefixed aligned
UTF-8 mimetype; the pair's data is the external-file index. -/
def read_blob (p : Pair) (st : SCState) : SCRes SCValue :=
  if p.tag ≠ SDT.DOM_BLOB then .err .valueError st
  else
    (readUlong st).andThen fun size st =>
      (readSCString (align st)).andThen fun mime st =>
        .ok (.blob p.data size mime) st

/-- Embedding of `_read_file`: size and mimetype as for a blob, an optional
last-modified double (kept as its bit pattern; only for `DOM_FILE`), then an
aligned name. -/
def read_file (p : Pair) (st : SCState) : SCRes SCValue :=
  if p.tag ≠ SDT.DOM_FILE ∧ p.tag ≠ SDT.DOM_FILE_WITHOUT_LASTMODIFIEDDATE then
    .err .valueError st
  else
    (readUlong st).andThen fun size st =>
      (readSCString (align st)).andThen fun mime st =>
        (if p.tag = SDT.DOM_FILE then
          (readDouble st).andThen fun bits st => .ok (some bits) st
        else .ok none st).andThen fun lm st =>
          (readSCString (align st)).andThen fun name st =>
            .ok (.file p.data size mime lm name) st

/-- Read one `(unused:u32, length:u32)(bytes[length])` key-material group of
a CryptoKey, aligning afterwards. -/
def readKeyMaterial (st : SCState) : SCRes (List Byte) :=
  (readUint st).andThen fun _ st =>
    (readUint st).andThen fun len st =>
      (readRaw len st).andThen fun bs st => .ok bs (align st)

/-- Embedding of `read_cryptokey`: version 1 header, three key-material
groups, an aligned UTF-16 algorithm name (read but not retained, as in the
source), a proxy version and algorithm enum, then per-algorithm parameters. -/
def read_cryptokey (p : Pair) (st : SCState) : SCRes SCValue :=
  if p.tag ≠ SDT.DOM_CRYPTOKEY then .err .valueError st
  else
    (readUint st).andThen fun version st =>
      (readUint st).andThen fun _attributes st =>
        if version ≠ 1 then .err .scError st
        else
          (readKeyMaterial st).andThen fun sym st =>
            (readKeyMaterial st).andThen fun priv st =>
              (readKeyMaterial st).andThen fun pub st =>
                (readUint st).andThen fun _ st =>
                  (readUint st).andThen fun nameLen st =>
                    (readRaw (2 * nameLen) st).andThen fun nameRaw st =>
                      match utf16leDecode nameRaw with
                      | none => .err .unicodeError (align st)
                      | some _name =>
                        (readUint (align st)).andThen fun proxyVersion st =>
                          (readUint st).andThen fun algo st =>
                            if 5 < algo then .err .valueError st
                            else if proxyVersion ≠ 1 then .err .scError st
                            else
                              (readCryptoParams algo st).andThen fun params st =>
                                .ok (.cryptoKey
                                  (if sym = [] then none else some sym)
                                  (if priv = [] then none else some priv)
                                  (if pub = [] then none else some pub) params) st
where
  /-- Per-algorithm parameter reads of `read_cryptokey`'s `match algo`. -/
  readCryptoParams (algo : Nat) (st : SCState) : SCRes CryptoParams :=
    if algo = 0 then
      (readUint st).andThen fun _ st =>
        (readUint st).andThen fun len st => .ok (.aes len) st
    else if algo = 4 then .ok .kdf st
    else if algo = 1 then
      (readUint st).andThen fun _ st =>
        (readUint st).andThen fun len st =>
          (readUint st).andThen fun _ st =>
            (readUint st).andThen fun hashLen st =>
              (readRaw (2 * hashLen) st).andThen fun hashRaw st =>
                match utf16leDecode hashRaw with
                | none => .err .unicodeError (align st)
                | some hash => .ok (.hmac len hash) (align st)
    else if algo = 2 then
      (readUint st).andThen fun _ st =>
        (readUint st).andThen fun modLen st =>
          (readUint st).andThen fun _ st =>
            (readUint st).andThen fun expLen st =>
              (readRaw expLen st).andThen fun pubExp st =>
                (readUint (align st)).andThen fun _ st =>
                  (readUint st).andThen fun hashLen st =>
                    (readRaw (2 * hashLen) st).andThen fun hashRaw st =>
                      match utf16leDecode hashRaw with
                      | none => .err .unicodeError (align st)
                      | some hash => .ok (.rsa modLen pubExp hash) (align st)
    else if algo = 3 then
      (readUint st).andThen fun _ st =>
        (readUint st).andThen fun curveLen st =>
          (readRaw (2 * curveLen) st).andThen fun curve st =>
            .ok (.ec curve) (align st)
    else .ok .ed st

end MozReader.SC

namespace MozReader.SC

/-- Ordered-dict assignment `d[k] = v`: replace in place if the key exists,
else append (Python dicts keep the first-insertion position). -/
def upsert {κ α : Type} [DecidableEq κ] (k : κ) (v : α) : List (κ × α) → List (κ × α)
  | [] => [(k, v)]
  | (k', v') :: rest => if k' = k then (k, v) :: rest else (k', v') :: upsert k v rest

/-- Scalar-type/element-count header of `_read_typed_array`: for
`TYPED_ARRAY_OBJECT` the scalar type is the pair's data (validated first)
and the element count the next u64; for `TYPED_ARRAY_OBJECT_V2` the element
count is the pair's data and the scalar type the next u64 (validated after
reading). -/
def readTypedArrayHeader (p : Pair) (st : SCState) : SCRes (Nat × Nat) :=
  if p.tag = SDT.TYPED_ARRAY_OBJECT then
    if p.data ≤ 13 then
      (readUlong st).andThen fun cnt st => .ok (p.data, cnt) st
    else .err .valueError st
  else if p.tag = SDT.TYPED_ARRAY_OBJECT_V2 then
    (readUlong st).andThen fun t st =>
      if t ≤ 13 then .ok (t, p.data) st else .err .valueError st
  else .err .valueError st

/-- Resolve the value produced for a typed array's backing buffer to actual
bytes: Python's `isinstance(backing_buffer, bytes)` check, with a
back-reference standing for the table entry it denotes. -/
def resolveBacking (v : SCValue) (st : SCState) : SCRes (List Byte) :=
  match v with
  | .bytesV bs => .ok bs st
  | .backref i =>
    match st.table.get? i with
    | some (.bytesV bs) => .ok bs st
    | _ => .err .typeError st
  | _ => .err .typeError st

mutual

/-- Embedding of `StructuredCloneReader._read`: align, read a pair, enforce
the expected-tag set, interpret raw doubles (`tag < FLOAT_MAX`), then
dispatch on the tag.  Object-identity-bearing values append themselves to
the flattened table; typed arrays push an `undef` placeholder that is
overwritten once decoded. -/
def readValue (fuel : Nat) (expected : List Nat) (st : SCState) : SCRes SCValue :=
  match fuel with
  | 0 => .err .fuelOut st
  | fuel + 1 =>
    (readPair (align st)).andThen fun p st =>
      if expected ≠ [] ∧ p.tag ∉ expected then .err .scError st
      else if p.tag < SDT.FLOAT_MAX then .ok (.double ((p.tag <<< 32) ||| p.data)) st
      else if p.tag = SDT.NULL_TAG then .ok .null st
      else if p.tag = SDT.UNDEFINED then .ok .undef st
      else if p.tag = SDT.BOOLEAN then .ok (.boolV (p.data != 0)) st
      else if p.tag = SDT.BOOLEAN_OBJECT then
        .ok (.boolV (p.data != 0)) (pushTable (.boolV (p.data != 0)) st)
      else if p.tag = SDT.INT32 then .ok (.int32 (toSigned 4 p.data)) st
      else if p.tag = SDT.STRING then
        (read_string_internal p st).andThen fun cps st => .ok (.str cps) st
      else if p.tag = SDT.STRING_OBJECT then
        (read_string_internal p st).andThen fun cps st =>
          .ok (.str cps) (pushTable (.str cps) st)
      else if p.tag = SDT.DATE_OBJECT then
        (readDouble st).andThen fun bits st =>
          .ok (.date bits) (pushTable (.date bits) st)
      else if p.tag = SDT.REGEXP_OBJECT then
        (read_string st).andThen fun cps st =>
          .ok (.regexp cps) (pushTable (.regexp cps) st)
      else if p.tag = SDT.BIGINT then
        (read_bigint p st).andThen fun v st => .ok (.bigintV v) st
      else if p.tag = SDT.BIGINT_OBJECT then
        (read_bigint p st).andThen fun v st =>
          .ok (.bigintV v) (pushTable (.bigintV v) st)
      else if p.tag = SDT.NUMBER_OBJECT then
        (readDouble st).andThen fun bits st =>
          .ok (.double bits) (pushTable (.double bits) st)
      else if p.tag = SDT.BACK_REFERENCE_OBJECT then
        if p.data < st.table.length then
          .ok (.backref p.data)
            { st with events := st.events ++ [⟨p.data, st.table.length⟩] }
        else .err .indexError st
      else if p.tag = SDT.ARRAY_OBJECT then read_array fuel p st
      else if p.tag = SDT.OBJECT_OBJECT then read_object fuel p st
      else if p.tag = SDT.TYPED_ARRAY_OBJECT ∨ p.tag = SDT.TYPED_ARRAY_OBJECT_V2 then
        (read_typed_array fuel p false (pushTable .undef st)).andThen fun v st' =>
          .ok v { st' with table := st'.table.set st.table.length v }
      else if p.tag = SDT.MAP_OBJECT then read_map fuel p st
      else if p.tag = SDT.SET_OBJECT then read_set fuel p st
      else if p.tag = SDT.ARRAY_BUFFER_OBJECT then
        (readUlong st).andThen fun len st =>
          (readRaw len st).andThen fun bs st =>
            .ok (.bytesV bs) (pushTable (.bytesV bs) st)
      else if p.tag = SDT.ARRAY_BUFFER_OBJECT_V2 then
        (readRaw p.data st).andThen fun bs st =>
          .ok (.bytesV bs) (pushTable (.bytesV bs) st)
      else if p.tag = SDT.DOM_BLOB then read_blob p st
      else if p.tag = SDT.DOM_FILE ∨ p.tag = SDT.DOM_FILE_WITHOUT_LASTMODIFIEDDATE then
        (read_file p st).andThen fun v st => .ok v (pushTable v st)
      else if p.tag = SDT.DOM_FILELIST then .err .notImplemented st
      else if p.tag = SDT.DOM_CRYPTOKEY then read_cryptokey p st
      else if p.tag = SDT.END_OF_KEYS then .err .endOfKeys st
      else .err .notImplemented st
termination_by structural fuel

/-- Embedding of `_read_array`: the (empty) result is appended to the table
before population; `(INT32 key, value)` pairs accumulate in a sparse dict
until `END_OF_KEYS`; `unsparse_array` materializes the result, which also
overwrites the table slot (the Python list is mutated in place). -/
def read_array (fuel : Nat) (p : Pair) (st : SCState) : SCRes SCValue :=
  match fuel with
  | 0 => .err .fuelOut st
  | fuel + 1 =>
    if p.tag ≠ SDT.ARRAY_OBJECT then .err .valueError st
    else
      (readArrayItems fuel (pushTable (.arr []) st) []).andThen fun sparse st' =>
        match unsparse_array p.data sparse SCValue.undef with
        | .error _ => .err .valueError st'
        | .ok xs => .ok (.arr xs) { st' with table := st'.table.set st.table.length (.arr xs) }
termination_by structural fuel

/-- Key/value loop of `_read_array`: keys must decode as `INT32` (the
expected-tag set enforces this); `END_OF_KEYS` ends the loop. -/
def readArrayItems (fuel : Nat) (st : SCState) (acc : List (Int × SCValue)) :
    SCRes (List (Int × SCValue)) :=
  match fuel with
  | 0 => .err .fuelOut st
  | fuel + 1 =>
    match readValue fuel [SDT.INT32, SDT.END_OF_KEYS] st with
    | .err .endOfKeys st' => .ok acc st'
    | .err e st' => .err e st'
    | .ok (.int32 k) st' =>
      (match readValue fuel [] st' with
      | .err e st'' => .err e st''
      | .ok v st'' => readArrayItems fuel st'' (upsert k v acc))
    | .ok _ st' => .err .scError st'
termination_by structural fuel

/-- Embedding of `_read_object`: appended to the table before population;
string-keyed entries accumulate in insertion order until `END_OF_KEYS`. -/
def read_object (fuel : Nat) (p : Pair) (st : SCState) : SCRes SCValue :=
  match fuel with
  | 0 => .err .fuelOut st
  | fuel + 1 =>
    if p.tag ≠ SDT.OBJECT_OBJECT then .err .valueError st
    else
      (readObjectItems fuel (pushTable (.obj []) st) []).andThen fun kvs st' =>
        .ok (.obj kvs) { st' with table := st'.table.set st.table.length (.obj kvs) }
termination_by structural fuel

/-- Key/value loop of `_read_object`: keys must decode as `STRING` or
`STRING_OBJECT`. -/
def readObjectItems (fuel : Nat) (st : SCState) (acc : List (List Nat × SCValue)) :
    SCRes (List (List Nat × SCValue)) :=
  match fuel with
  | 0 => .err .fuelOut st
  | fuel + 1 =>
    match readValue fuel [SDT.STRING, SDT.STRING_OBJECT, SDT.END_OF_KEYS] st with
    | .err .endOfKeys st' => .ok acc st'
    | .err e st' => .err e st'
    | .ok (.str k) st' =>
      (match readValue fuel [] st' with
      | .err e st'' => .err e st''
      | .ok v st'' => readObjectItems fuel st'' (upsert k v acc))
    | .ok _ st' => .err .scError st'
termination_by structural fuel

/-- Embedding of `_read_map`: appended to the table before population;
arbitrary key/value pairs until the key read hits `END_OF_KEYS`. -/
def read_map (fuel : Nat) (p : Pair) (st : SCState) : SCRes SCValue :=
  match fuel with
  | 0 => .err .fuelOut st
  | fuel + 1 =>
    if p.tag ≠ SDT.MAP_OBJECT then .err .valueError st
    else
      (readMapItems fuel (pushTable (.mapV []) st) []).andThen fun kvs st' =>
        .ok (.mapV kvs) { st' with table := st'.table.set st.table.length (.mapV kvs) }
termination_by structural fuel

/-- Key/value loop of `_read_map`. -/
def readMapItems (fuel : Nat) (st : SCState) (acc : List (SCValue × SCValue)) :
    SCRes (List (SCValue × SCValue)) :=
  match fuel with
  | 0 => .err .fuelOut st
  | fuel + 1 =>
    match readValue fuel [] st with
    | .err .endOfKeys st' => .ok acc st'
    | .err e st' => .err e st'
    | .ok k st' =>
      (match readValue fuel [] st' with
      | .err e st'' => .err e st''
      | .ok v st'' => readMapItems fuel st'' (acc ++ [(k, v)]))
termination_by structural fuel

/-- Embedding of `_read_set`: appended to the table before population;
values until `END_OF_KEYS`. -/
def read_set (fuel : Nat) (p : Pair) (st : SCState) : SCRes SCValue :=
  match fuel with
  | 0 => .err .fuelOut st
  | fuel + 1 =>
    if p.tag ≠ SDT.SET_OBJECT then .err .valueError st
    else
      (readSetItems fuel (pushTable (.setV []) st) []).andThen fun xs st' =>
        .ok (.setV xs) { st' with table := st'.table.set st.table.length (.setV xs) }
termination_by structural fuel

/-- Value loop of `_read_set`. -/
def readSetItems (fuel : Nat) (st : SCState) (acc : List SCValue) :
    SCRes (List SCValue) :=
  match fuel with
  | 0 => .err .fuelOut st
  | fuel + 1 =>
    match readValue fuel [] st with
    | .err .endOfKeys st' => .ok acc st'
    | .err e st' => .err e st'
    | .ok v st' => readSetItems fuel st' (acc ++ [v])
termination_by structural fuel

/-- Embedding of `_read_typed_array` (always called with
`is_v1_format=False`): for `TYPED_ARRAY_OBJECT` the scalar type is the
pair's data and the element count the next u64; for
`TYPED_ARRAY_OBJECT_V2` the element count is the pair's data and the scalar
type the next u64; then the backing buffer (an ArrayBuffer or a
back-reference that must resolve to bytes), then a u64 start offset, then
materialization. -/
def read_typed_array (fuel : Nat) (p : Pair) (is_v1_format : Bool) (st : SCState) :
    SCRes SCValue :=
  match fuel with
  | 0 => .err .fuelOut st
  | fuel + 1 =>
    if is_v1_format then .err .valueError st
    else
      (readTypedArrayHeader p st).andThen fun tc st =>
        (readValue fuel
            [SDT.BACK_REFERENCE_OBJECT, SDT.ARRAY_BUFFER_OBJECT, SDT.ARRAY_BUFFER_OBJECT_V2]
            st).andThen fun backing st' =>
          (resolveBacking backing st').andThen fun buf st' =>
            (readUlong st').andThen fun start st' =>
              match data_to_array tc.1 buf tc.2 start with
              | .error e => .err e st'
              | .ok v => .ok v st'
termination_by structural fuel
end

/-- Embedding of `StructuredCloneReader.__init__` followed by `read_root`:
the first pair's tag must be `HEADER` (its data is kept as the scope), then
the root value is read. -/
def read_root (fuel : Nat) (bytes : List Byte) : SCRes SCValue :=
  (readPair ⟨bytes, 0, 0, [], []⟩).andThen fun hp st =>
    if hp.tag ≠ SDT.HEADER then .err .scError st
    else readValue fuel [] { st with scope := hp.data }

end MozReader.SC

namespace MozReader.SC

/-- Amended-spec description of the `TYPED_ARRAY_OBJECT_V2` handler: the
element count is the pair's data; the scalar-type code is the next u64;
then the backing-buffer value is read; then a u64 start offset is read; the
elements are materialized from the backing buffer starting at that offset. -/
def read_typed_array_v2_spec (fuel : Nat) (d : Nat) (st : SCState) : SCRes SCValue :=
  (readUlong st).andThen fun t st =>
    if t ≤ 13 then
      (readValue fuel
          [SDT.BACK_REFERENCE_OBJECT, SDT.ARRAY_BUFFER_OBJECT, SDT.ARRAY_BUFFER_OBJECT_V2]
          st).andThen fun backing st' =>
        (resolveBacking backing st').andThen fun buf st' =>
          (readUlong st').andThen fun start st' =>
            match data_to_array t buf d start with
            | .error e => .err e st'
            | .ok v => .ok v st'
    else .err .valueError st

end MozReader.SC

/-! ## Claim C4 -/

/-- C4 counterexample: a concrete stream holding a `TYPED_ARRAY_OBJECT_V2`
pair (element count 2, scalar type Uint8) over the 3-byte backing buffer
`0A 14 1E` followed by the u64 start offset 1 decodes to elements
`(20, 30)`, not to the elements `(10, 20)` that materializing from the
start of the backing buffer without reading a start offset would produce. -/
theorem C4_v2_start_offset_counterexample :
    (MozReader.SC.read_root 10
      [1, 0, 0, 0, 0, 0, 0xF1, 0xFF,
       2, 0, 0, 0, 0x10, 0, 0xFF, 0xFF,
       1, 0, 0, 0, 0, 0, 0, 0,
       3, 0, 0, 0, 0x09, 0, 0xFF, 0xFF,
       10, 20, 30,
       1, 0, 0, 0, 0, 0, 0, 0] =
    .ok (.taList [.intE 20, .intE 30])
      ⟨[1, 0, 0, 0, 0, 0, 0xF1, 0xFF,
        2, 0, 0, 0, 0x10, 0, 0xFF, 0xFF,
        1, 0, 0, 0, 0, 0, 0, 0,
        3, 0, 0, 0, 0x09, 0, 0xFF, 0xFF,
        10, 20, 30,
        1, 0, 0, 0, 0, 0, 0, 0], 43, 1,
       [.taList [.intE 20, .intE 30], .bytesV [10, 20, 30]], []⟩) ∧
    MozReader.SC.SCValue.taList [.intE 20, .intE 30] ≠
      MozReader.SC.SCValue.taList [.intE 10, .intE 20] := by
  constructor
  · rfl
  · intro h
    simp only [MozReader.SC.SCValue.taList.injEq, List.cons.injEq,
      MozReader.SC.TAElem.intE.injEq] at h
    omega

/-- C4 (amended): when the structured-clone reader reads a pair whose tag is
`TYPED_ARRAY_OBJECT_V2`, it takes the element count from the pair's data
field, reads the scalar-type code as the next u64, reads the backing-buffer
value, and then reads one more u64 as the start offset: the elements are
materialized from the backing buffer beginning at that offset (the handler
for `TYPED_ARRAY_OBJECT_V2` equals the amended-spec pipeline on every
state). -/
theorem C4_v2_reads_start_offset (fuel : Nat) (d : Nat) (st : MozReader.SC.SCState) :
    MozReader.SC.read_typed_array (fuel + 1) ⟨d, MozReader.SC.SDT.TYPED_ARRAY_OBJECT_V2⟩
        false st =
      MozReader.SC.read_typed_array_v2_spec fuel d st := by
  rw [MozReader.SC.read_typed_array, MozReader.SC.read_typed_array_v2_spec,
    MozReader.SC.readTypedArrayHeader]
  simp only [Bool.false_eq_true, if_false]
  rw [if_neg (by decide)]
  simp only [if_true]
  cases MozReader.SC.readUlong st with
  | err e st₁ => rfl
  | ok t st₁ =>
    simp only [MozReader.SC.SCRes.andThen]
    by_cases ht : t ≤ 13
    · rw [if_pos ht, if_pos ht]
    · rw [if_neg ht, if_neg ht]

namespace MozReader.SC

/-- Outcomes other than fuel exhaustion. -/
def SCRes.noFuel {α : Type} : SCRes α → Prop
  | .err .fuelOut _ => False
  | _ => True

theorem andThen_ok {α β : Type} (a : α) (st : SCState) (f : α → SCState → SCRes β) :
    (SCRes.ok a st).andThen f = f a st := rfl

theorem andThen_err {α β : Type} (e : SCErr) (st : SCState) (f : α → SCState → SCRes β) :
    (SCRes.err e st).andThen f = .err e st := rfl

theorem ite_mono_step {α : Type} {c : Prop} [Decidable c] {a a' b b' r : α}
    (ha : c → a = r → a' = r) (hb : ¬c → b = r → b' = r)
    (h : (if c then a else b) = r) : (if c then a' else b') = r := by
  by_cases hc : c
  · rw [if_pos hc] at h ⊢; exact ha hc h
  · rw [if_neg hc] at h ⊢; exact hb hc h

theorem fuelStepAll : ∀ fuel : Nat,
    (∀ exp st r, readValue fuel exp st = r → r.noFuel → readValue (fuel + 1) exp st = r) ∧
    (∀ p st r, read_array fuel p st = r → r.noFuel → read_array (fuel + 1) p st = r) ∧
    (∀ st acc r, readArrayItems fuel st acc = r → r.noFuel →
      readArrayItems (fuel + 1) st acc = r) ∧
    (∀ p st r, read_object fuel p st = r → r.noFuel → read_object (fuel + 1) p st = r) ∧
    (∀ st acc r, readObjectItems fuel st acc = r → r.noFuel →
      readObjectItems (fuel + 1) st acc = r) ∧
    (∀ p st r, read_map fuel p st = r → r.noFuel → read_map (fuel + 1) p st = r) ∧
    (∀ st acc r, readMapItems fuel st acc = r → r.noFuel →
      readMapItems (fuel + 1) st acc = r) ∧
    (∀ p st r, read_set fuel p st = r → r.noFuel → read_set (fuel + 1) p st = r) ∧
    (∀ st acc r, readSetItems fuel st acc = r → r.noFuel →
      readSetItems (fuel + 1) st acc = r) ∧
    (∀ p v1 st r, read_typed_array fuel p v1 st = r → r.noFuel →
      read_typed_array (fuel + 1) p v1 st = r) := by
  intro fuel
  induction fuel with
  | zero =>
    refine ⟨fun a b c h hr => ?_, fun a b c h hr => ?_, fun a b c h hr => ?_,
      fun a b c h hr => ?_, fun a b c h hr => ?_, fun a b c h hr => ?_,
      fun a b c h hr => ?_, fun a b c h hr => ?_, fun a b c h hr => ?_,
      fun a b c d h hr => ?_⟩ <;>
      (rw [← h] at hr; exact hr.elim)
  | succ fuel ih =>
    obtain ⟨ihV, ihArr, ihArrI, ihObj, ihObjI, ihMap, ihMapI, ihSet, ihSetI, ihTA⟩ := ih
    refine ⟨?_, ?_, ?_, ?_, ?_, ?_, ?_, ?_, ?_, ?_⟩
    -- readValue
    · intro exp st r h hr
      rw [readValue.eq_def] at h ⊢
      dsimp only at h ⊢
      cases hp : readPair (align st) with
      | err e st₁ =>
        rw [hp] at h
        rw [andThen_err] at h ⊢
        exact h
      | ok p st₁ =>
        rw [hp] at h
        rw [andThen_ok] at h ⊢
        try dsimp only at h ⊢
        refine ite_mono_step (fun _ hh => hh) (fun _ => ?_) h
        refine ite_mono_step (fun _ hh => hh) (fun _ => ?_)
        refine ite_mono_step (fun _ hh => hh) (fun _ => ?_)
        refine ite_mono_step (fun _ hh => hh) (fun _ => ?_)
        refine ite_mono_step (fun _ hh => hh) (fun _ => ?_)
        refine ite_mono_step (fun _ hh => hh) (fun _ => ?_)
        refine ite_mono_step (fun _ hh => hh) (fun _ => ?_)
        refine ite_mono_step (fun _ hh => hh) (fun _ => ?_)
        refine ite_mono_step (fun _ hh => hh) (fun _ => ?_)
        refine ite_mono_step (fun _ hh => hh) (fun _ => ?_)
        refine ite_mono_step (fun _ hh => hh) (fun _ => ?_)
        refine ite_mono_step (fun _ hh => hh) (fun _ => ?_)
        refine ite_mono_step (fun _ hh => hh) (fun _ => ?_)
        refine ite_mono_step (fun _ hh => hh) (fun _ => ?_)
        refine ite_mono_step (fun _ hh => hh) (fun _ => ?_)
        refine ite_mono_step (fun _ hh => ihArr _ _ _ hh hr) (fun _ => ?_)
        refine ite_mono_step (fun _ hh => ihObj _ _ _ hh hr) (fun _ => ?_)
        refine ite_mono_step (fun _ hh => ?_) (fun _ => ?_)
        · -- typed arrays
          rename_i hh
          cases hta : read_typed_array fuel p false (pushTable SCValue.undef st₁) with
          | err e st₂ =>
            rw [hta, andThen_err] at hh
            cases e
            case fuelOut =>
              rw [← hh] at hr
              exact hr.elim
            all_goals
              rw [ihTA _ _ _ _ hta trivial, andThen_err]
              exact hh
          | ok v st₂ =>
            rw [hta, andThen_ok] at hh
            rw [ihTA _ _ _ _ hta trivial, andThen_ok]
            exact hh
        · refine ite_mono_step (fun _ hh => ihMap _ _ _ hh hr) (fun _ => ?_)
          refine ite_mono_step (fun _ hh => ihSet _ _ _ hh hr) (fun _ => ?_)
          exact fun hh => hh
    -- read_array
    · intro p st r h hr
      rw [read_array.eq_def] at h ⊢
      dsimp only at h ⊢
      refine ite_mono_step (fun _ hh => hh) (fun _ => ?_) h
      intro hh
      cases hI : readArrayItems fuel (pushTable (.arr []) st) [] with
      | err e st' =>
        rw [hI, andThen_err] at hh
        cases e
        case fuelOut => rw [← hh] at hr; exact hr.elim
        all_goals
          rw [ihArrI _ _ _ hI trivial, andThen_err]
          exact hh
      | ok sparse st' =>
        rw [hI, andThen_ok] at hh
        rw [ihArrI _ _ _ hI trivial, andThen_ok]
        exact hh
    -- readArrayItems
    · intro st acc r h hr
      rw [readArrayItems.eq_def] at h ⊢
      dsimp only at h ⊢
      cases hk : readValue fuel [SDT.INT32, SDT.END_OF_KEYS] st with
      | err e st' =>
        rw [hk] at h
        cases e
        case fuelOut =>
          dsimp only at h
          rw [← h] at hr
          exact hr.elim
        all_goals
          dsimp only at h
          rw [ihV _ _ _ hk trivial]
          dsimp only
          exact h
      | ok v st' =>
        rw [hk] at h
        rw [ihV _ _ _ hk trivial]
        cases v <;> dsimp only at h ⊢ <;> try exact h
        case int32 k =>
          cases hv : readValue fuel [] st' with
          | err e st'' =>
            rw [hv] at h
            cases e
            case fuelOut =>
              dsimp only at h
              rw [← h] at hr
              exact hr.elim
            all_goals
              dsimp only at h
              rw [ihV _ _ _ hv trivial]
              dsimp only
              exact h
          | ok w st'' =>
            rw [hv] at h
            dsimp only at h
            rw [ihV _ _ _ hv trivial]
            dsimp only
            exact ihArrI _ _ _ h hr
    -- read_object
    · intro p st r h hr
      rw [read_object.eq_def] at h ⊢
      dsimp only at h ⊢
      refine ite_mono_step (fun _ hh => hh) (fun _ => ?_) h
      intro hh
      cases hI : readObjectItems fuel (pushTable (.obj []) st) [] with
      | err e st' =>
        rw [hI, andThen_err] at hh
        cases e
        case fuelOut => rw [← hh] at hr; exact hr.elim
        all_goals
          rw [ihObjI _ _ _ hI trivial, andThen_err]
          exact hh
      | ok kvs st' =>
        rw [hI, andThen_ok] at hh
        rw [ihObjI _ _ _ hI trivial, andThen_ok]
        exact hh
    -- readObjectItems
    · intro st acc r h hr
      rw [readObjectItems.eq_def] at h ⊢
      dsimp only at h ⊢
      cases hk : readValue fuel [SDT.STRING, SDT.STRING_OBJECT, SDT.END_OF_KEYS] st with
      | err e st' =>
        rw [hk] at h
        cases e
        case fuelOut =>
          dsimp only at h
          rw [← h] at hr
          exact hr.elim
        all_goals
          dsimp only at h
          rw [ihV _ _ _ hk trivial]
          dsimp only
          exact h
      | ok v st' =>
        rw [hk] at h
        rw [ihV _ _ _ hk trivial]
        cases v <;> dsimp only at h ⊢ <;> try exact h
        case str k =>
          cases hv : readValue fuel [] st' with
          | err e st'' =>
            rw [hv] at h
            cases e
            case fuelOut =>
              dsimp only at h
              rw [← h] at hr
              exact hr.elim
            all_goals
              dsimp only at h
              rw [ihV _ _ _ hv trivial]
              dsimp only
              exact h
          | ok w st'' =>
            rw [hv] at h
            dsimp only at h
            rw [ihV _ _ _ hv trivial]
            dsimp only
            exact ihObjI _ _ _ h hr
    -- read_map
    · intro p st r h hr
      rw [read_map.eq_def] at h ⊢
      dsimp only at h ⊢
      refine ite_mono_step (fun _ hh => hh) (fun _ => ?_) h
      intro hh
      cases hI : readMapItems fuel (pushTable (.mapV []) st) [] with
      | err e st' =>
        rw [hI, andThen_err] at hh
        cases e
        case fuelOut => rw [← hh] at hr; exact hr.elim
        all_goals
          rw [ihMapI _ _ _ hI trivial, andThen_err]
          exact hh
      | ok kvs st' =>
        rw [hI, andThen_ok] at hh
        rw [ihMapI _ _ _ hI trivial, andThen_ok]
        exact hh
    -- readMapItems
    · intro st acc r h hr
      rw [readMapItems.eq_def] at h ⊢
      dsimp only at h ⊢
      cases hk : readValue fuel [] st with
      | err e st' =>
        rw [hk] at h
        cases e
        case fuelOut =>
          dsimp only at h
          rw [← h] at hr
          exact hr.elim
        all_goals
          dsimp only at h
          rw [ihV _ _ _ hk trivial]
          dsimp only
          exact h
      | ok k st' =>
        rw [hk] at h
        rw [ihV _ _ _ hk trivial]
        dsimp only at h ⊢
        cases hv : readValue fuel [] st' with
        | err e st'' =>
          rw [hv] at h
          cases e
          case fuelOut =>
            dsimp only at h
            rw [← h] at hr
            exact hr.elim
          all_goals
            dsimp only at h
            rw [ihV _ _ _ hv trivial]
            dsimp only
            exact h
        | ok v st'' =>
          rw [hv] at h
          dsimp only at h
          rw [ihV _ _ _ hv trivial]
          dsimp only
          exact ihMapI _ _ _ h hr
    -- read_set
    · intro p st r h hr
      rw [read_set.eq_def] at h ⊢
      dsimp only at h ⊢
      refine ite_mono_step (fun _ hh => hh) (fun _ => ?_) h
      intro hh
      cases hI : readSetItems fuel (pushTable (.setV []) st) [] with
      | err e st' =>
        rw [hI, andThen_err] at hh
        cases e
        case fuelOut => rw [← hh] at hr; exact hr.elim
        all_goals
          rw [ihSetI _ _ _ hI trivial, andThen_err]
          exact hh
      | ok xs st' =>
        rw [hI, andThen_ok] at hh
        rw [ihSetI _ _ _ hI trivial, andThen_ok]
        exact hh
    -- readSetItems
    · intro st acc r h hr
      rw [readSetItems.eq_def] at h ⊢
      dsimp only at h ⊢
      cases hk : readValue fuel [] st with
      | err e st' =>
        rw [hk] at h
        cases e
        case fuelOut =>
          dsimp only at h
          rw [← h] at hr
          exact hr.elim
        all_goals
          dsimp only at h
          rw [ihV _ _ _ hk trivial]
          dsimp only
          exact h
      | ok v st' =>
        rw [hk] at h
        dsimp only at h
        rw [ihV _ _ _ hk trivial]
        dsimp only
        exact ihSetI _ _ _ h hr
    -- read_typed_array
    · intro p v1 st r h hr
      rw [read_typed_array.eq_def] at h ⊢
      dsimp only at h ⊢
      cases v1 with
      | true =>
        rw [if_pos rfl] at h ⊢
        exact h
      | false =>
        rw [if_neg (by simp)] at h ⊢
        cases hpre : readTypedArrayHeader p st with
        | err e st₁ =>
          rw [hpre] at h
          rw [andThen_err] at h ⊢
          exact h
        | ok tc st₁ =>
          rw [hpre] at h
          rw [andThen_ok] at h ⊢
          try dsimp only at h ⊢
          cases hb : readValue fuel
              [SDT.BACK_REFERENCE_OBJECT, SDT.ARRAY_BUFFER_OBJECT, SDT.ARRAY_BUFFER_OBJECT_V2]
              st₁ with
          | err e st₂ =>
            rw [hb, andThen_err] at h
            cases e
            case fuelOut => rw [← h] at hr; exact hr.elim
            all_goals
              rw [ihV _ _ _ hb trivial, andThen_err]
              exact h
          | ok backing st₂ =>
            rw [hb, andThen_ok] at h
            rw [ihV _ _ _ hb trivial, andThen_ok]
            exact h

end MozReader.SC

namespace MozReader.SC

/-- Fuel monotonicity: any outcome other than fuel exhaustion is stable
under additional fuel. -/
theorem readValue_fuel_le {f g : Nat} (hfg : f ≤ g) {exp : List Nat} {st : SCState}
    {r : SCRes SCValue} (h : readValue f exp st = r) (hr : r.noFuel) :
    readValue g exp st = r := by
  induction hfg with
  | refl => exact h
  | step hfg ih => exact (fuelStepAll _).1 _ _ _ ih hr

end MozReader.SC

/-! ## Claim C8 -/

/-- C8: decoding a structured-clone byte stream is deterministic.  Two
independent runs of the reader over the same bytes (with arbitrary fuel
bounds) that both decode successfully produce the same value and the same
final state, so the value graphs are structurally equal and every
back-reference resolved to the structurally same flattened-table entry in
both runs (the final state carries the table and the trace of resolved
back-references). -/
theorem C8_decode_deterministic (bytes : List MozReader.Byte) (f₁ f₂ : Nat)
    (v₁ v₂ : MozReader.SC.SCValue) (st₁ st₂ : MozReader.SC.SCState)
    (h₁ : MozReader.SC.read_root f₁ bytes = .ok v₁ st₁)
    (h₂ : MozReader.SC.read_root f₂ bytes = .ok v₂ st₂) :
    v₁ = v₂ ∧ st₁ = st₂ := by
  rw [MozReader.SC.read_root] at h₁ h₂
  cases hp : MozReader.SC.readPair ⟨bytes, 0, 0, [], []⟩ with
  | err e st₀ =>
    rw [hp, MozReader.SC.andThen_err] at h₁
    cases h₁
  | ok p st₀ =>
    rw [hp, MozReader.SC.andThen_ok] at h₁ h₂
    try dsimp only at h₁ h₂
    by_cases htag : p.tag ≠ MozReader.SC.SDT.HEADER
    · rw [if_pos htag] at h₁
      cases h₁
    · rw [if_neg htag] at h₁ h₂
      have m₁ : MozReader.SC.readValue (max f₁ f₂) [] { st₀ with scope := p.data } =
          .ok v₁ st₁ :=
        MozReader.SC.readValue_fuel_le (Nat.le_max_left f₁ f₂) h₁ trivial
      have m₂ : MozReader.SC.readValue (max f₁ f₂) [] { st₀ with scope := p.data } =
          .ok v₂ st₂ :=
        MozReader.SC.readValue_fuel_le (Nat.le_max_right f₁ f₂) h₂ trivial
      rw [m₁] at m₂
      cases m₂
      exact ⟨rfl, rfl⟩

/-- Witness for C8 at a concrete stream (header then INT32 5) decoded twice
with different fuel bounds. -/
theorem C8_decode_deterministic_witness :
    MozReader.SC.read_root 1
        [7, 0, 0, 0, 0, 0, 0xF1, 0xFF, 5, 0, 0, 0, 3, 0, 0xFF, 0xFF] =
      .ok (.int32 5)
        ⟨[7, 0, 0, 0, 0, 0, 0xF1, 0xFF, 5, 0, 0, 0, 3, 0, 0xFF, 0xFF], 16, 7, [], []⟩ ∧
    ((.int32 5 : MozReader.SC.SCValue) = .int32 5 ∧
      (⟨[7, 0, 0, 0, 0, 0, 0xF1, 0xFF, 5, 0, 0, 0, 3, 0, 0xFF, 0xFF], 16, 7, [], []⟩ :
          MozReader.SC.SCState) =
        ⟨[7, 0, 0, 0, 0, 0, 0xF1, 0xFF, 5, 0, 0, 0, 3, 0, 0xFF, 0xFF], 16, 7, [], []⟩) :=
  ⟨rfl, C8_decode_deterministic
    [7, 0, 0, 0, 0, 0, 0xF1, 0xFF, 5, 0, 0, 0, 3, 0, 0xFF, 0xFF] 1 2 _ _ _ _ rfl rfl⟩

namespace MozReader.SC

/-- The state carried by an outcome, successful or not. -/
def SCRes.state {α : Type} : SCRes α → SCState
  | .ok _ st => st
  | .err _ st => st

/-- Well-formedness of the back-reference trace: every recorded resolution
used an index strictly below the table size at that moment. -/
def EventsOK (l : List BackrefEvent) : Prop := ∀ ev ∈ l, ev.idx < ev.tableSize

theorem andThen_state_events {α β : Type} {r : SCRes α} {f : α → SCState → SCRes β}
    {E : List BackrefEvent} (h1 : (r.state).events = E)
    (h2 : ∀ a st', ((f a st').state).events = st'.events) :
    (((r.andThen f)).state).events = E := by
  cases r with
  | err e st' => exact h1
  | ok a st' => rw [andThen_ok, h2 a st']; exact h1

theorem events_align (st : SCState) : (align st).events = st.events := by
  unfold align; split <;> rfl

theorem events_pushTable (v : SCValue) (st : SCState) :
    (pushTable v st).events = st.events := rfl

theorem events_readRaw (n : Nat) (st : SCState) :
    ((readRaw n st).state).events = st.events := by
  unfold readRaw; split <;> rfl

theorem events_readPair (st : SCState) : ((readPair st).state).events = st.events := by
  unfold readPair
  refine andThen_state_events (events_readRaw 8 st) ?_
  intro a st'
  dsimp only
  split
  · rfl
  · split <;> rfl

theorem events_readUint (st : SCState) : ((readUint st).state).events = st.events := by
  unfold readUint
  exact andThen_state_events (events_readRaw 4 st) (fun a st' => rfl)

theorem events_readUlong (st : SCState) : ((readUlong st).state).events = st.events := by
  unfold readUlong
  exact andThen_state_events (events_readRaw 8 st) (fun a st' => rfl)

theorem events_readDouble (st : SCState) : ((readDouble st).state).events = st.events := by
  unfold readDouble
  exact andThen_state_events (events_readRaw 8 st) (fun a st' => rfl)

theorem events_read_string_internal (p : Pair) (st : SCState) :
    ((read_string_internal p st).state).events = st.events := by
  unfold read_string_internal
  split
  · rfl
  · split
    · refine andThen_state_events (events_readRaw _ st) ?_
      intro a st'
      dsimp only
      split <;> rfl
    · exact andThen_state_events (events_readRaw _ st) (fun a st' => rfl)

theorem events_read_string (st : SCState) : ((read_string st).state).events = st.events := by
  unfold read_string
  exact andThen_state_events (events_readPair st)
    (fun p st' => events_read_string_internal p st')

theorem events_read_bigint (p : Pair) (st : SCState) :
    ((read_bigint p st).state).events = st.events := by
  unfold read_bigint
  split
  · rfl
  · refine andThen_state_events (events_readRaw _ st) ?_
    intro a st'
    dsimp only
    split <;> rfl

theorem events_readSCString (st : SCState) : ((readSCString st).state).events = st.events := by
  unfold readSCString
  refine andThen_state_events (events_readUint st) ?_
  intro n st'
  refine andThen_state_events (by rw [events_readRaw, events_align]) ?_
  intro bs st''
  dsimp only
  split <;> exact events_align st''

theorem events_readKeyMaterial (st : SCState) :
    ((readKeyMaterial st).state).events = st.events := by
  unfold readKeyMaterial
  refine andThen_state_events (events_readUint st) ?_
  intro _ st'
  refine andThen_state_events (events_readUint st') ?_
  intro len st''
  refine andThen_state_events (events_readRaw len st'') ?_
  intro bs st'''
  exact events_align st'''

theorem events_read_blob (p : Pair) (st : SCState) :
    ((read_blob p st).state).events = st.events := by
  unfold read_blob
  split
  · rfl
  · refine andThen_state_events (events_readUlong st) ?_
    intro size st'
    refine andThen_state_events (by rw [events_readSCString, events_align]) ?_
    intro mime st''
    rfl

theorem events_read_file (p : Pair) (st : SCState) :
    ((read_file p st).state).events = st.events := by
  unfold read_file
  split
  · rfl
  · refine andThen_state_events (events_readUlong st) ?_
    intro size st'
    refine andThen_state_events (by rw [events_readSCString, events_align]) ?_
    intro mime st''
    refine andThen_state_events ?_ ?_
    · split
      · exact andThen_state_events (events_readDouble st'') (fun _ _ => rfl)
      · rfl
    · intro lm st₃
      refine andThen_state_events (by rw [events_readSCString, events_align]) ?_
      intro name st₄
      rfl

theorem events_readCryptoParams (algo : Nat) (st : SCState) :
    ((read_cryptokey.readCryptoParams algo st).state).events = st.events := by
  unfold read_cryptokey.readCryptoParams
  split
  · refine andThen_state_events (events_readUint st) ?_
    intro _ st'
    exact andThen_state_events (events_readUint st') (fun _ _ => rfl)
  · split
    · rfl
    · split
      · refine andThen_state_events (events_readUint st) ?_
        intro _ st'
        refine andThen_state_events (events_readUint st') ?_
        intro len st₂
        refine andThen_state_events (events_readUint st₂) ?_
        intro _ st₃
        refine andThen_state_events (events_readUint st₃) ?_
        intro hashLen st₄
        refine andThen_state_events (events_readRaw _ st₄) ?_
        intro hashRaw st₅
        dsimp only
        split <;> exact events_align st₅
      · split
        · refine andThen_state_events (events_readUint st) ?_
          intro _ st'
          refine andThen_state_events (events_readUint st') ?_
          intro modLen st₂
          refine andThen_state_events (events_readUint st₂) ?_
          intro _ st₃
          refine andThen_state_events (events_readUint st₃) ?_
          intro expLen st₄
          refine andThen_state_events (events_readRaw _ st₄) ?_
          intro pubExp st₅
          refine andThen_state_events (by rw [events_readUint, events_align]) ?_
          intro _ st₆
          refine andThen_state_events (events_readUint st₆) ?_
          intro hashLen st₇
          refine andThen_state_events (events_readRaw _ st₇) ?_
          intro hashRaw st₈
          dsimp only
          split <;> exact events_align st₈
        · split
          · refine andThen_state_events (events_readUint st) ?_
            intro _ st'
            refine andThen_state_events (events_readUint st') ?_
            intro curveLen st₂
            refine andThen_state_events (events_readRaw _ st₂) ?_
            intro curve st₃
            exact events_align st₃
          · rfl

theorem events_read_cryptokey (p : Pair) (st : SCState) :
    ((read_cryptokey p st).state).events = st.events := by
  unfold read_cryptokey
  split
  · rfl
  · refine andThen_state_events (events_readUint st) ?_
    intro version st'
    refine andThen_state_events (events_readUint st') ?_
    intro _ st₂
    dsimp only
    split
    · rfl
    · refine andThen_state_events (events_readKeyMaterial st₂) ?_
      intro sym st₃
      refine andThen_state_events (events_readKeyMaterial st₃) ?_
      intro priv st₄
      refine andThen_state_events (events_readKeyMaterial st₄) ?_
      intro pub st₅
      refine andThen_state_events (events_readUint st₅) ?_
      intro _ st₆
      refine andThen_state_events (events_readUint st₆) ?_
      intro nameLen st₇
      refine andThen_state_events (events_readRaw _ st₇) ?_
      intro nameRaw st₈
      dsimp only
      split
      · exact events_align st₈
      · refine andThen_state_events (by rw [events_readUint, events_align]) ?_
        intro proxyVersion st₉
        refine andThen_state_events (events_readUint st₉) ?_
        intro algo st₁₀
        dsimp only
        split
        · rfl
        · split
          · rfl
          · exact andThen_state_events (events_readCryptoParams algo st₁₀) (fun _ _ => rfl)

theorem events_resolveBacking (v : SCValue) (st : SCState) :
    ((resolveBacking v st).state).events = st.events := by
  unfold resolveBacking
  split
  · rfl
  · split <;> rfl
  · rfl

theorem events_readTypedArrayHeader (p : Pair) (st : SCState) :
    ((readTypedArrayHeader p st).state).events = st.events := by
  unfold readTypedArrayHeader
  split
  · split
    · exact andThen_state_events (events_readUlong st) (fun _ _ => rfl)
    · rfl
  · split
    · refine andThen_state_events (events_readUlong st) ?_
      intro t st'
      dsimp only
      split <;> rfl
    · rfl

end MozReader.SC

namespace MozReader.SC

theorem EventsOK_of_eq {E E' : List BackrefEvent} (h : E = E') (h' : EventsOK E') :
    EventsOK E := h ▸ h'

theorem scIteCases {α : Type} (P : α → Prop) {c : Prop} [Decidable c] {a b : α}
    (ha : c → P a) (hb : ¬c → P b) : P (if c then a else b) := by
  by_cases hc : c
  · rw [if_pos hc]; exact ha hc
  · rw [if_neg hc]; exact hb hc

theorem eventsAll : ∀ fuel : Nat,
    (∀ exp st, EventsOK st.events → EventsOK (((readValue fuel exp st).state).events)) ∧
    (∀ p st, EventsOK st.events → EventsOK (((read_array fuel p st).state).events)) ∧
    (∀ st acc, EventsOK st.events → EventsOK (((readArrayItems fuel st acc).state).events)) ∧
    (∀ p st, EventsOK st.events → EventsOK (((read_object fuel p st).state).events)) ∧
    (∀ st acc, EventsOK st.events → EventsOK (((readObjectItems fuel st acc).state).events)) ∧
    (∀ p st, EventsOK st.events → EventsOK (((read_map fuel p st).state).events)) ∧
    (∀ st acc, EventsOK st.events → EventsOK (((readMapItems fuel st acc).state).events)) ∧
    (∀ p st, EventsOK st.events → EventsOK (((read_set fuel p st).state).events)) ∧
    (∀ st acc, EventsOK st.events → EventsOK (((readSetItems fuel st acc).state).events)) ∧
    (∀ p v1 st, EventsOK st.events →
      EventsOK (((read_typed_array fuel p v1 st).state).events)) := by
  intro fuel
  induction fuel with
  | zero =>
    exact ⟨fun _ _ hE => hE, fun _ _ hE => hE, fun _ _ hE => hE, fun _ _ hE => hE,
      fun _ _ hE => hE, fun _ _ hE => hE, fun _ _ hE => hE, fun _ _ hE => hE,
      fun _ _ hE => hE, fun _ _ _ hE => hE⟩
  | succ fuel ih =>
    obtain ⟨ihV, ihArr, ihArrI, ihObj, ihObjI, ihMap, ihMapI, ihSet, ihSetI, ihTA⟩ := ih
    refine ⟨?_, ?_, ?_, ?_, ?_, ?_, ?_, ?_, ?_, ?_⟩
    -- readValue
    · intro exp st hE
      rw [readValue.eq_def]
      dsimp only
      cases hp : readPair (align st) with
      | err e st₁ =>
        have h1 := events_readPair (align st)
        rw [hp] at h1
        rw [events_align] at h1
        exact EventsOK_of_eq h1 hE
      | ok p st₁ =>
        have h1 := events_readPair (align st)
        rw [hp] at h1
        rw [events_align] at h1
        have hE₁ : EventsOK st₁.events := EventsOK_of_eq h1 hE
        rw [andThen_ok]
        try dsimp only
        refine scIteCases (fun x : SCRes SCValue => EventsOK ((SCRes.state x).events)) (fun _ => hE₁) (fun _ => ?_)
        refine scIteCases (fun x : SCRes SCValue => EventsOK ((SCRes.state x).events)) (fun _ => hE₁) (fun _ => ?_)
        refine scIteCases (fun x : SCRes SCValue => EventsOK ((SCRes.state x).events)) (fun _ => hE₁) (fun _ => ?_)
        refine scIteCases (fun x : SCRes SCValue => EventsOK ((SCRes.state x).events)) (fun _ => hE₁) (fun _ => ?_)
        refine scIteCases (fun x : SCRes SCValue => EventsOK ((SCRes.state x).events)) (fun _ => hE₁) (fun _ => ?_)
        refine scIteCases (fun x : SCRes SCValue => EventsOK ((SCRes.state x).events)) (fun _ => hE₁) (fun _ => ?_)
        refine scIteCases (fun x : SCRes SCValue => EventsOK ((SCRes.state x).events)) (fun _ => hE₁) (fun _ => ?_)
        refine scIteCases (fun x : SCRes SCValue => EventsOK ((SCRes.state x).events)) (fun _ => EventsOK_of_eq
          (andThen_state_events (events_read_string_internal p st₁) (fun _ _ => rfl)) hE₁)
          (fun _ => ?_)
        refine scIteCases (fun x : SCRes SCValue => EventsOK ((SCRes.state x).events)) (fun _ => EventsOK_of_eq
          (andThen_state_events (events_read_string_internal p st₁) (fun _ _ => rfl)) hE₁)
          (fun _ => ?_)
        refine scIteCases (fun x : SCRes SCValue => EventsOK ((SCRes.state x).events)) (fun _ => EventsOK_of_eq
          (andThen_state_events (events_readDouble st₁) (fun _ _ => rfl)) hE₁)
          (fun _ => ?_)
        refine scIteCases (fun x : SCRes SCValue => EventsOK ((SCRes.state x).events)) (fun _ => EventsOK_of_eq
          (andThen_state_events (events_read_string st₁) (fun _ _ => rfl)) hE₁)
          (fun _ => ?_)
        refine scIteCases (fun x : SCRes SCValue => EventsOK ((SCRes.state x).events)) (fun _ => EventsOK_of_eq
          (andThen_state_events (events_read_bigint p st₁) (fun _ _ => rfl)) hE₁)
          (fun _ => ?_)
        refine scIteCases (fun x : SCRes SCValue => EventsOK ((SCRes.state x).events)) (fun _ => EventsOK_of_eq
          (andThen_state_events (events_read_bigint p st₁) (fun _ _ => rfl)) hE₁)
          (fun _ => ?_)
        refine scIteCases (fun x : SCRes SCValue => EventsOK ((SCRes.state x).events)) (fun _ => EventsOK_of_eq
          (andThen_state_events (events_readDouble st₁) (fun _ _ => rfl)) hE₁)
          (fun _ => ?_)
        -- BACK_REFERENCE_OBJECT
        refine scIteCases (fun x : SCRes SCValue => EventsOK ((SCRes.state x).events)) (fun _ => ?_) (fun _ => ?_)
        · refine scIteCases (fun x : SCRes SCValue => EventsOK ((SCRes.state x).events)) (fun hlt => ?_) (fun _ => hE₁)
          intro ev hev
          rcases List.mem_append.mp hev with hold | hnew
          · exact hE₁ ev hold
          · rw [List.mem_singleton] at hnew
            subst hnew
            exact hlt
        · refine scIteCases (fun x : SCRes SCValue => EventsOK ((SCRes.state x).events)) (fun _ => ihArr p st₁ hE₁) (fun _ => ?_)
          refine scIteCases (fun x : SCRes SCValue => EventsOK ((SCRes.state x).events)) (fun _ => ihObj p st₁ hE₁) (fun _ => ?_)
          -- typed arrays
          refine scIteCases (fun x : SCRes SCValue => EventsOK ((SCRes.state x).events)) (fun _ => ?_) (fun _ => ?_)
          · cases hta : read_typed_array fuel p false (pushTable SCValue.undef st₁) with
            | err e st₂ =>
              have h2 := ihTA p false (pushTable SCValue.undef st₁) hE₁
              rw [hta] at h2
              exact h2
            | ok v st₂ =>
              have h2 := ihTA p false (pushTable SCValue.undef st₁) hE₁
              rw [hta] at h2
              exact h2
          · refine scIteCases (fun x : SCRes SCValue => EventsOK ((SCRes.state x).events)) (fun _ => ihMap p st₁ hE₁) (fun _ => ?_)
            refine scIteCases (fun x : SCRes SCValue => EventsOK ((SCRes.state x).events)) (fun _ => ihSet p st₁ hE₁) (fun _ => ?_)
            refine scIteCases (fun x : SCRes SCValue => EventsOK ((SCRes.state x).events)) (fun _ => EventsOK_of_eq
              (andThen_state_events (events_readUlong st₁)
                (fun len st' => andThen_state_events (events_readRaw len st')
                  (fun _ _ => rfl))) hE₁)
              (fun _ => ?_)
            refine scIteCases (fun x : SCRes SCValue => EventsOK ((SCRes.state x).events)) (fun _ => EventsOK_of_eq
              (andThen_state_events (events_readRaw p.data st₁) (fun _ _ => rfl)) hE₁)
              (fun _ => ?_)
            refine scIteCases (fun x : SCRes SCValue => EventsOK ((SCRes.state x).events)) (fun _ => EventsOK_of_eq (events_read_blob p st₁) hE₁)
              (fun _ => ?_)
            refine scIteCases (fun x : SCRes SCValue => EventsOK ((SCRes.state x).events)) (fun _ => EventsOK_of_eq
              (andThen_state_events (events_read_file p st₁) (fun _ _ => rfl)) hE₁)
              (fun _ => ?_)
            refine scIteCases (fun x : SCRes SCValue => EventsOK ((SCRes.state x).events)) (fun _ => hE₁) (fun _ => ?_)
            refine scIteCases (fun x : SCRes SCValue => EventsOK ((SCRes.state x).events)) (fun _ => EventsOK_of_eq (events_read_cryptokey p st₁) hE₁)
              (fun _ => ?_)
            exact scIteCases (fun x : SCRes SCValue => EventsOK ((SCRes.state x).events)) (fun _ => hE₁) (fun _ => hE₁)
    -- read_array
    · intro p st hE
      rw [read_array.eq_def]
      dsimp only
      refine scIteCases (fun x : SCRes SCValue => EventsOK ((SCRes.state x).events)) (fun _ => hE) (fun _ => ?_)
      cases hI : readArrayItems fuel (pushTable (.arr []) st) [] with
      | err e st' =>
        have h := ihArrI (pushTable (.arr []) st) [] hE
        rw [hI] at h
        exact h
      | ok sparse st' =>
        have h := ihArrI (pushTable (.arr []) st) [] hE
        rw [hI] at h
        rw [andThen_ok]
        try dsimp only
        split <;> exact h
    -- readArrayItems
    · intro st acc hE
      rw [readArrayItems.eq_def]
      dsimp only
      cases hk : readValue fuel [SDT.INT32, SDT.END_OF_KEYS] st with
      | err e st' =>
        have h := ihV [SDT.INT32, SDT.END_OF_KEYS] st hE
        rw [hk] at h
        cases e <;> exact h
      | ok v st' =>
        have h := ihV [SDT.INT32, SDT.END_OF_KEYS] st hE
        rw [hk] at h
        cases v <;> try exact h
        case int32 k =>
          try dsimp only
          cases hv : readValue fuel [] st' with
          | err e st'' =>
            have h2 := ihV [] st' h
            rw [hv] at h2
            exact h2
          | ok w st'' =>
            have h2 := ihV [] st' h
            rw [hv] at h2
            exact ihArrI st'' (upsert k w acc) h2
    -- read_object
    · intro p st hE
      rw [read_object.eq_def]
      dsimp only
      refine scIteCases (fun x : SCRes SCValue => EventsOK ((SCRes.state x).events)) (fun _ => hE) (fun _ => ?_)
      cases hI : readObjectItems fuel (pushTable (.obj []) st) [] with
      | err e st' =>
        have h := ihObjI (pushTable (.obj []) st) [] hE
        rw [hI] at h
        exact h
      | ok kvs st' =>
        have h := ihObjI (pushTable (.obj []) st) [] hE
        rw [hI] at h
        exact h
    -- readObjectItems
    · intro st acc hE
      rw [readObjectItems.eq_def]
      dsimp only
      cases hk : readValue fuel [SDT.STRING, SDT.STRING_OBJECT, SDT.END_OF_KEYS] st with
      | err e st' =>
        have h := ihV [SDT.STRING, SDT.STRING_OBJECT, SDT.END_OF_KEYS] st hE
        rw [hk] at h
        cases e <;> exact h
      | ok v st' =>
        have h := ihV [SDT.STRING, SDT.STRING_OBJECT, SDT.END_OF_KEYS] st hE
        rw [hk] at h
        cases v <;> try exact h
        case str k =>
          try dsimp only
          cases hv : readValue fuel [] st' with
          | err e st'' =>
            have h2 := ihV [] st' h
            rw [hv] at h2
            exact h2
          | ok w st'' =>
            have h2 := ihV [] st' h
            rw [hv] at h2
            exact ihObjI st'' (upsert k w acc) h2
    -- read_map
    · intro p st hE
      rw [read_map.eq_def]
      dsimp only
      refine scIteCases (fun x : SCRes SCValue => EventsOK ((SCRes.state x).events)) (fun _ => hE) (fun _ => ?_)
      cases hI : readMapItems fuel (pushTable (.mapV []) st) [] with
      | err e st' =>
        have h := ihMapI (pushTable (.mapV []) st) [] hE
        rw [hI] at h
        exact h
      | ok kvs st' =>
        have h := ihMapI (pushTable (.mapV []) st) [] hE
        rw [hI] at h
        exact h
    -- readMapItems
    · intro st acc hE
      rw [readMapItems.eq_def]
      dsimp only
      cases hk : readValue fuel [] st with
      | err e st' =>
        have h := ihV [] st hE
        rw [hk] at h
        cases e <;> exact h
      | ok k st' =>
        have h := ihV [] st hE
        rw [hk] at h
        try dsimp only
        cases hv : readValue fuel [] st' with
        | err e st'' =>
          have h2 := ihV [] st' h
          rw [hv] at h2
          cases e <;> exact h2
        | ok v st'' =>
          have h2 := ihV [] st' h
          rw [hv] at h2
          exact ihMapI st'' (acc ++ [(k, v)]) h2
    -- read_set
    · intro p st hE
      rw [read_set.eq_def]
      dsimp only
      refine scIteCases (fun x : SCRes SCValue => EventsOK ((SCRes.state x).events)) (fun _ => hE) (fun _ => ?_)
      cases hI : readSetItems fuel (pushTable (.setV []) st) [] with
      | err e st' =>
        have h := ihSetI (pushTable (.setV []) st) [] hE
        rw [hI] at h
        exact h
      | ok xs st' =>
        have h := ihSetI (pushTable (.setV []) st) [] hE
        rw [hI] at h
        exact h
    -- readSetItems
    · intro st acc hE
      rw [readSetItems.eq_def]
      dsimp only
      cases hk : readValue fuel [] st with
      | err e st' =>
        have h := ihV [] st hE
        rw [hk] at h
        cases e <;> exact h
      | ok v st' =>
        have h := ihV [] st hE
        rw [hk] at h
        exact ihSetI st' (acc ++ [v]) h
    -- read_typed_array
    · intro p v1 st hE
      rw [read_typed_array.eq_def]
      dsimp only
      refine scIteCases (fun x : SCRes SCValue => EventsOK ((SCRes.state x).events)) (fun _ => hE) (fun _ => ?_)
      cases hh : readTypedArrayHeader p st with
      | err e st₁ =>
        have h1 := events_readTypedArrayHeader p st
        rw [hh] at h1
        exact EventsOK_of_eq h1 hE
      | ok tc st₁ =>
        have h1 := events_readTypedArrayHeader p st
        rw [hh] at h1
        have hE₁ : EventsOK st₁.events := EventsOK_of_eq h1 hE
        rw [andThen_ok]
        try dsimp only
        cases hb : readValue fuel
            [SDT.BACK_REFERENCE_OBJECT, SDT.ARRAY_BUFFER_OBJECT, SDT.ARRAY_BUFFER_OBJECT_V2]
            st₁ with
        | err e st₂ =>
          have h2 := ihV [SDT.BACK_REFERENCE_OBJECT, SDT.ARRAY_BUFFER_OBJECT,
            SDT.ARRAY_BUFFER_OBJECT_V2] st₁ hE₁
          rw [hb] at h2
          exact h2
        | ok backing st₂ =>
          have h2 := ihV [SDT.BACK_REFERENCE_OBJECT, SDT.ARRAY_BUFFER_OBJECT,
            SDT.ARRAY_BUFFER_OBJECT_V2] st₁ hE₁
          rw [hb] at h2
          rw [andThen_ok]
          refine EventsOK_of_eq
            (andThen_state_events (events_resolveBacking backing st₂) ?_) h2
          intro buf st'
          refine andThen_state_events (events_readUlong st') ?_
          intro start st''
          dsimp only
          split <;> rfl

end MozReader.SC

/-! ## Claim C5 -/

/-- C5: in every structured-clone stream that decodes successfully, each
`BACK_REFERENCE_OBJECT` pair's data index is strictly less than the size of
the flattened-object table at the moment the reference is read (the trace
records exactly these resolutions), and therefore resolves to a table slot
whose value's decoding began earlier in document order: composite values
are appended to the table before their children are decoded and typed
arrays reserve a placeholder slot that is overwritten after decoding. -/
theorem C5_backref_in_bounds (fuel : Nat) (bytes : List MozReader.Byte)
    (v : MozReader.SC.SCValue) (st' : MozReader.SC.SCState)
    (h : MozReader.SC.read_root fuel bytes = .ok v st') :
    ∀ ev ∈ st'.events, ev.idx < ev.tableSize := by
  rw [MozReader.SC.read_root] at h
  cases hp : MozReader.SC.readPair ⟨bytes, 0, 0, [], []⟩ with
  | err e st₀ =>
    rw [hp, MozReader.SC.andThen_err] at h
    cases h
  | ok p st₀ =>
    rw [hp, MozReader.SC.andThen_ok] at h
    try dsimp only at h
    by_cases htag : p.tag ≠ MozReader.SC.SDT.HEADER
    · rw [if_pos htag] at h
      cases h
    · rw [if_neg htag] at h
      have h0 := MozReader.SC.events_readPair
        (⟨bytes, 0, 0, [], []⟩ : MozReader.SC.SCState)
      rw [hp] at h0
      have hE : MozReader.SC.EventsOK ({ st₀ with scope := p.data } :
          MozReader.SC.SCState).events := by
        intro ev hev
        rw [show ({ st₀ with scope := p.data } : MozReader.SC.SCState).events =
          st₀.events from rfl] at hev
        rw [show st₀.events = ([] : List MozReader.SC.BackrefEvent) from h0] at hev
        cases hev
      have h2 := (MozReader.SC.eventsAll fuel).1 [] { st₀ with scope := p.data } hE
      rw [h] at h2
      exact h2

/-- Witness for C5: a concrete stream holding an array of declared length 1
whose single element is a back-reference to the array itself decodes
successfully, and its one recorded back-reference resolution (index 0,
table size 1) is in bounds. -/
theorem C5_backref_in_bounds_witness :
    MozReader.SC.read_root 10
        [1, 0, 0, 0, 0, 0, 0xF1, 0xFF,
         1, 0, 0, 0, 0x07, 0, 0xFF, 0xFF,
         0, 0, 0, 0, 0x03, 0, 0xFF, 0xFF,
         0, 0, 0, 0, 0x0D, 0, 0xFF, 0xFF,
         0, 0, 0, 0, 0x13, 0, 0xFF, 0xFF] =
      .ok (.arr [.backref 0])
        ⟨[1, 0, 0, 0, 0, 0, 0xF1, 0xFF,
          1, 0, 0, 0, 0x07, 0, 0xFF, 0xFF,
          0, 0, 0, 0, 0x03, 0, 0xFF, 0xFF,
          0, 0, 0, 0, 0x0D, 0, 0xFF, 0xFF,
          0, 0, 0, 0, 0x13, 0, 0xFF, 0xFF], 40, 1,
         [.arr [.backref 0]], [⟨0, 1⟩]⟩ ∧
    (∀ ev ∈ ([⟨0, 1⟩] : List MozReader.SC.BackrefEvent), ev.idx < ev.tableSize) :=
  ⟨rfl, C5_backref_in_bounds 10
    [1, 0, 0, 0, 0, 0, 0xF1, 0xFF,
     1, 0, 0, 0, 0x07, 0, 0xFF, 0xFF,
     0, 0, 0, 0, 0x03, 0, 0xFF, 0xFF,
     0, 0, 0, 0, 0x0D, 0, 0xFF, 0xFF,
     0, 0, 0, 0, 0x13, 0, 0xFF, 0xFF]
    (.arr [.backref 0])
    ⟨[1, 0, 0, 0, 0, 0, 0xF1, 0xFF,
      1, 0, 0, 0, 0x07, 0, 0xFF, 0xFF,
      0, 0, 0, 0, 0x03, 0, 0xFF, 0xFF,
      0, 0, 0, 0, 0x0D, 0, 0xFF, 0xFF,
      0, 0, 0, 0, 0x13, 0, 0xFF, 0xFF], 40, 1,
     [.arr [.backref 0]], [⟨0, 1⟩]⟩ (by rfl)⟩

/-! ## Cache header-predicate filtering (ccl_mozilla_reader/ccl_moz_cache.py)

Embedding of `MozillaCache._check_attributes` and the keep/skip decision of
`iter_cache` (`if kwargs and not self._check_attributes(...): continue`).
Header names and values are Lean strings; `str.lower()` is modelled with
`String.toLower` (the attribute names involved are ASCII).  A keyword
predicate value is either a Python bool or a `KeySearch` (an exact string,
a collection, a compiled regex — behaviourally its `search` truthiness — or
a predicate function). -/

namespace MozReader.MozCache

/-- The `KeySearch` union of `common.py`. -/
inductive KeySearchM where
  | strK (s : String)
  | regexK (f : String → Bool)
  | collK (l : List String)
  | funcK (f : String → Bool)

/-- Embedding of `is_keysearch_hit`. -/
def is_keysearch_hit (search : KeySearchM) (value : String) : Bool :=
  match search with
  | .strK s => value == s
  | .regexK f => f value
  | .collK l => l.contains value
  | .funcK f => f value

/-- A value of a header-predicate keyword argument: a Python bool or a key
search. -/
inductive TestValue where
  | boolT (b : Bool)
  | search (ks : KeySearchM)

/-- A cache file abstracted to its parsed header overlay (names stored
lowercase, as produced by the header map lookup path). -/
structure CacheFileM where
  header : List (String × String)

/-- ASCII lowercasing of one character (`str.lower()` on the ASCII names
and values involved here). -/
def pyLowerChar (c : Char) : Char :=
  if 'A' ≤ c ∧ c ≤ 'Z' then Char.ofNat (c.toNat + 32) else c

/-- ASCII `str.lower()`. -/
def pyLower (s : String) : String := ⟨s.data.map pyLowerChar⟩

/-- Embedding of `CacheFile.has_header_attribute`. -/
def has_header_attribute (cf : CacheFileM) (att : String) : Bool :=
  (cf.header.lookup (pyLower att)).isSome

/-- Embedding of `CacheFile.get_header_attribute`. -/
def get_header_attribute (cf : CacheFileM) (att : String) : Option String :=
  cf.header.lookup (pyLower att)

/-- The keyword-name normalization `att_name.replace("_", "-").lower()`. -/
def normName (n : String) : String :=
  pyLower ⟨n.data.map (fun c => if c = '_' then '-' else c)⟩

/-- Embedding of `MozillaCache._check_attributes`.  Note the bool case:
the source executes `return not (test_value ^ has_att)` inside the loop, so
a bool-valued predicate returns immediately and any remaining keyword
predicates are never examined. -/
def check_attributes (cf : CacheFileM) : List (String × TestValue) → Bool
  | [] => true
  | (attName, testValue) :: rest =>
    let att := normName attName
    let hasAtt := has_header_attribute cf att
    match testValue with
    | .boolT b => !(b.xor hasAtt)
    | .search ks =>
      if !hasAtt then false
      else
        match get_header_attribute cf att with
        | some v => if !(is_keysearch_hit ks v) then false else check_attributes cf rest
        | none => false

/-- The keep/skip decision of `iter_cache` for a candidate file: it is
yielded unless keyword predicates were supplied and `_check_attributes`
rejects it. -/
def iter_cache_keeps (cf : CacheFileM) (preds : List (String × TestValue)) : Bool :=
  preds.isEmpty || check_attributes cf preds

/-- The spec's predicate semantics: a candidate satisfies every supplied
predicate — `True` requires the attribute present, `False` absent, and a
key search requires it present with a matching value. -/
def satisfies_all_predicates (cf : CacheFileM) (preds : List (String × TestValue)) : Bool :=
  preds.all fun nt =>
    let att := normName nt.1
    match nt.2 with
    | .boolT true => has_header_attribute cf att
    | .boolT false => !(has_header_attribute cf att)
    | .search ks =>
      has_header_attribute cf att &&
        (match get_header_attribute cf att with
        | some v => is_keysearch_hit ks v
        | none => false)

end MozReader.MozCache

/-! ## Claim C7 -/

/-- C7 (code bug): with the mixed predicates `x_a = True` (present) and
`x_b = "v"` (present with value `"v"`) against a file whose headers contain
`x-a` but not `x-b`, `_check_attributes` returns `True` — its bool branch
executes `return not (test_value ^ has_att)` inside the loop, discarding
the remaining predicates — so `iter_cache` yields the file even though the
second predicate fails; the claim (and the `iter_cache` docstring) requires
every supplied predicate to be satisfied, which this file does not. -/
theorem C7_check_attributes_early_return :
    MozReader.MozCache.check_attributes ⟨[("x-a", "1")]⟩
        [("x_a", .boolT true), ("x_b", .search (.strK "v"))] = true ∧
    MozReader.MozCache.iter_cache_keeps ⟨[("x-a", "1")]⟩
        [("x_a", .boolT true), ("x_b", .search (.strK "v"))] = true ∧
    MozReader.MozCache.satisfies_all_predicates ⟨[("x-a", "1")]⟩
        [("x_a", .boolT true), ("x_b", .search (.strK "v"))] = false := by
  refine ⟨by decide, by decide, by decide⟩

/-! ## Cache entry metadata (ccl_moz_cache.py, CacheFileMetadata.from_reader)

Embedding of the big-endian metadata decoding.  The reader is positioned at
the start of the metadata block, so the embedding takes the block's bytes
with the cursor at 0 plus the caller-computed chunk count.  Seconds-valued
timestamps are kept as their u32 values and the `frecency` float as its raw
4 bytes. -/

namespace MozReader.CacheMeta

/-- Failure modes of `from_reader` (`ValueError`, Unicode decode errors and
the `struct.error` of unpacking a short offset trailer are distinguished by
message). -/
inductive MetaErr where
  | shortRead
  | badVersion
  | badUtf8
  | keyNotNulTerminated
  | structError
  | missingFinalNul
  | oddElements
  | badAscii
  | badKey
  deriving Repr, DecidableEq

/-- Embedding of `BinaryReader.read_raw`. -/
def rdRaw (n : Nat) (s : ByteStream) : Except MetaErr (List Byte × ByteStream) :=
  if n ≤ s.data.length - s.pos then
    .ok ((s.data.drop s.pos).take n, { s with pos := s.pos + n })
  else .error .shortRead

/-- Embedding of `BinaryReader.read_uint32` (big-endian). -/
def rdU32 (s : ByteStream) : Except MetaErr (Nat × ByteStream) := do
  let (bs, s') ← rdRaw 4 s
  pure (beU bs, s')

/-- Embedding of `BinaryReader.read_uint16` (big-endian). -/
def rdU16 (s : ByteStream) : Except MetaErr (Nat × ByteStream) := do
  let (bs, s') ← rdRaw 2 s
  pure (beU bs, s')

/-- The `chunk_hashes` loop: `chunk_count` consecutive u16 reads. -/
def rdU16s : Nat → ByteStream → Except MetaErr (List Nat × ByteStream)
  | 0, s => .ok ([], s)
  | n + 1, s => do
    let (v, s') ← rdU16 s
    let (vs, s'') ← rdU16s n s'
    pure (v :: vs, s'')

/-- Embedding of `BinaryReader.read_utf8`: raw bytes strictly decoded as
UTF-8 into code points. -/
def rdUtf8 (n : Nat) (s : ByteStream) : Except MetaErr (List Nat × ByteStream) := do
  let (bs, s') ← rdRaw n s
  match utf8Decode bs with
  | some cps => pure (cps, s')
  | none => .error .badUtf8

/-- Embedding of `BinaryReader.read_until_end`. -/
def read_until_end (s : ByteStream) : List Byte × ByteStream :=
  (s.data.drop s.pos, { s with pos := s.data.length })

/-- Python `bytes.decode("ascii")`: succeeds when all bytes are below 0x80. -/
def asciiDecode (bs : List Byte) : Option (List Nat) :=
  if bs.all (· < 0x80) then some bs else none

/-- Python `str.lower()` on the ASCII code points produced by
`asciiDecode`. -/
def asciiLower (cps : List Nat) : List Nat :=
  cps.map (fun c => if 65 ≤ c ∧ c ≤ 90 then c + 32 else c)

/-- The element-map comprehension: consume `name`, `value` byte runs two at
a time, ASCII-decoding both and case-folding the name. -/
def elementPairs : List (List Byte) → Except MetaErr (List (List Nat × List Nat))
  | [] => .ok []
  | [_] => .error .oddElements
  | n :: v :: rest => do
    match asciiDecode n, asciiDecode v with
    | some nm, some vv => do
      let tail ← elementPairs rest
      pure ((asciiLower nm, vv) :: tail)
    | _, _ => .error .badAscii

/-- The decoded metadata record. -/
structure CacheFileMetadataM where
  metadata_hash : Nat
  chunk_hashes : List Nat
  version : Nat
  fetch_count : Nat
  last_fetched : Nat
  last_modified : Nat
  frecency : List Byte
  expiration : Nat
  key_size : Nat
  flags : Nat
  key : MozReader.CacheKey.Fields
  offset : Nat
  elements : List (List Nat × List Nat)

/-- Embedding of `CacheFileMetadata.from_reader`: fixed-size header fields,
version check, NUL-terminated UTF-8 key of `key_size + 1` bytes, then the
elements blob whose last four bytes are the big-endian offset trailer,
preceded by a final NUL; the NUL-separated items must pair up, names and
values are ASCII, and the key string must parse as a cache key
(`CacheKey(key)` in the constructor call). -/
def from_reader (chunk_count : Nat) (s : ByteStream) : Except MetaErr CacheFileMetadataM := do
  let (metadata_hash, s) ← rdU32 s
  let (chunk_hashes, s) ← rdU16s chunk_count s
  let (version, s) ← rdU32 s
  if version ≠ 3 then .error .badVersion
  else do
    let (fetch_count, s) ← rdU32 s
    let (last_fetched, s) ← rdU32 s
    let (last_modified, s) ← rdU32 s
    let (frecency, s) ← rdRaw 4 s
    let (expiration, s) ← rdU32 s
    let (key_size, s) ← rdU32 s
    let (flags, s) ← rdU32 s
    let (keyCps, s) ← rdUtf8 (key_size + 1) s
    if keyCps.getLast? ≠ some 0 then .error .keyNotNulTerminated
    else do
      let key := keyCps.dropLast
      let (elementsRaw, _) := read_until_end s
      if elementsRaw.length < 4 then .error .structError
      else do
        let offset := beU (elementsRaw.drop (elementsRaw.length - 4))
        let body := elementsRaw.take (elementsRaw.length - 4)
        if body.getLast? ≠ some 0 then .error .missingFinalNul
        else do
          let parts := body.dropLast.splitOn 0
          if parts.length % 2 ≠ 0 then .error .oddElements
          else do
            let pairs ← elementPairs parts
            let elements := pairs.foldl (fun acc kv => MozReader.SC.upsert kv.1 kv.2 acc) []
            match MozReader.CacheKey.parse key with
            | .error _ => .error .badKey
            | .ok ck =>
              pure ⟨metadata_hash, chunk_hashes, version, fetch_count, last_fetched,
                last_modified, frecency, expiration, key_size, flags, ck, offset, elements⟩

/-- The `key_size` field: big-endian u32 at byte offset `28 + 2 * cc` of
the metadata block. -/
def metaKeySize (bytes : List Byte) (cc : Nat) : Nat :=
  beU ((bytes.drop (28 + 2 * cc)).take 4)

/-- The `version` field: big-endian u32 at byte offset `4 + 2 * cc`. -/
def versionField (bytes : List Byte) (cc : Nat) : Nat :=
  beU ((bytes.drop (4 + 2 * cc)).take 4)

/-- The key field: `key_size + 1` bytes at offset `36 + 2 * cc`. -/
def keyField (bytes : List Byte) (cc : Nat) : List Byte :=
  (bytes.drop (36 + 2 * cc)).take (metaKeySize bytes cc + 1)

/-- The elements blob: everything after the key field, including the final
NUL and the 4-byte offset trailer. -/
def elementsRegion (bytes : List Byte) (cc : Nat) : List Byte :=
  bytes.drop (37 + 2 * cc + metaKeySize bytes cc)

/-- The elements blob without the trailing 4-byte offset. -/
def elementsBody (bytes : List Byte) (cc : Nat) : List Byte :=
  (elementsRegion bytes cc).take ((elementsRegion bytes cc).length - 4)

/-- Defect 1 of the claim: the version field is 3. -/
def versionIs3 (bytes : List Byte) (cc : Nat) : Bool :=
  versionField bytes cc == 3

/-- Defect 2 of the claim: the byte at position `key_size` of the key field
(its last byte) is NUL. -/
def keyNulOK (bytes : List Byte) (cc : Nat) : Bool :=
  (keyField bytes cc).getLast? == some 0

/-- Defect 4 of the claim: the byte immediately preceding the trailing
4-byte offset is 0x00. -/
def finalNulOK (bytes : List Byte) (cc : Nat) : Bool :=
  (elementsBody bytes cc).getLast? == some 0

/-- Defect 3 of the claim: the NUL-separated elements block splits into an
even number of items. -/
def evenElemsOK (bytes : List Byte) (cc : Nat) : Bool :=
  ((elementsBody bytes cc).dropLast.splitOn 0).length % 2 == 0

/-- Amendment condition: the key field bytes decode as UTF-8. -/
def keyUtf8OK (bytes : List Byte) (cc : Nat) : Bool :=
  (utf8Decode (keyField bytes cc)).isSome

/-- Amendment condition: every NUL-separated element item is ASCII. -/
def elemsAsciiOK (bytes : List Byte) (cc : Nat) : Bool :=
  ((elementsBody bytes cc).dropLast.splitOn 0).all (fun part => part.all (· < 0x80))

/-- Amendment condition: the decoded key (without its NUL terminator)
parses as a cache key. -/
def keyParsesOK (bytes : List Byte) (cc : Nat) : Bool :=
  match utf8Decode (keyField bytes cc) with
  | some cps => (MozReader.CacheKey.parse cps.dropLast).toBool
  | none => false

end MozReader.CacheMeta

namespace MozReader

theorem getLast?_cons_ne {α : Type} (a : α) (l : List α) (h : l ≠ []) :
    (a :: l).getLast? = l.getLast? := by
  obtain ⟨x, xs, rfl⟩ := List.exists_cons_of_ne_nil h
  exact List.getLast?_cons_cons

theorem utf8Decode_nil : utf8Decode [] = some [] := rfl

theorem utf8Decode_cons (b1 : Byte) (t1 : List Byte) :
    utf8Decode (b1 :: t1) =
    if b1 < 0x80 then (utf8Decode t1).map (b1 :: ·)
    else if b1 < 0xC2 then none
    else if b1 < 0xE0 then
      match t1 with
      | b2 :: t2 =>
        if 0x80 ≤ b2 ∧ b2 < 0xC0 then
          (utf8Decode t2).map ((((b1 - 0xC0) <<< 6) + (b2 - 0x80)) :: ·)
        else none
      | [] => none
    else if b1 < 0xF0 then
      match t1 with
      | b2 :: b3 :: t3 =>
        if (if b1 = 0xE0 then 0xA0 ≤ b2 ∧ b2 < 0xC0
            else if b1 = 0xED then 0x80 ≤ b2 ∧ b2 < 0xA0
            else 0x80 ≤ b2 ∧ b2 < 0xC0) ∧ 0x80 ≤ b3 ∧ b3 < 0xC0 then
          (utf8Decode t3).map
            ((((b1 - 0xE0) <<< 12) + ((b2 - 0x80) <<< 6) + (b3 - 0x80)) :: ·)
        else none
      | _ => none
    else if b1 < 0xF5 then
      match t1 with
      | b2 :: b3 :: b4 :: t4 =>
        if (if b1 = 0xF0 then 0x90 ≤ b2 ∧ b2 < 0xC0
            else if b1 = 0xF4 then 0x80 ≤ b2 ∧ b2 < 0x90
            else 0x80 ≤ b2 ∧ b2 < 0xC0) ∧ 0x80 ≤ b3 ∧ b3 < 0xC0 ∧ 0x80 ≤ b4 ∧ b4 < 0xC0 then
          (utf8Decode t4).map
            ((((b1 - 0xF0) <<< 18) + ((b2 - 0x80) <<< 12) + ((b3 - 0x80) <<< 6) + (b4 - 0x80)) :: ·)
        else none
      | _ => none
    else none := by
  cases t1 with
  | nil => rfl
  | cons b2 t2 =>
    cases t2 with
    | nil => rfl
    | cons b3 t3 =>
      cases t3 with
      | nil => rfl
      | cons b4 t4 => rfl

theorem utf8_cp2_ne_zero (b b2 : Nat) (h : 194 ≤ b) :
    (b - 0xC0) <<< 6 + (b2 - 0x80) ≠ 0 := by omega

theorem utf8_cp3_ne_zero (b b2 b3 : Nat) (h : 224 ≤ b) (hb2 : 128 ≤ b2)
    (hb2e : b = 224 → 160 ≤ b2) :
    (b - 0xE0) <<< 12 + (b2 - 0x80) <<< 6 + (b3 - 0x80) ≠ 0 := by omega

theorem utf8_cp4_ne_zero (b b2 b3 b4 : Nat) (h : 240 ≤ b) (hb2 : 128 ≤ b2)
    (hb2e : b = 240 → 144 ≤ b2) :
    (b - 0xF0) <<< 18 + (b2 - 0x80) <<< 12 + (b3 - 0x80) <<< 6 + (b4 - 0x80) ≠ 0 := by
  omega

/-- Strict UTF-8 decoding relates the last code point to the last byte: the
decoded list is empty iff the input is empty, and the last code point is NUL
iff the last byte is 0x00 (NUL encodes only as the single byte 0; every
multi-byte sequence produces a nonzero code point and ends in a continuation
byte, which is nonzero). -/
theorem utf8Decode_last (bs : List Byte) : ∀ cps, utf8Decode bs = some cps →
    (cps = [] ↔ bs = []) ∧
    (bs ≠ [] → ((cps.getLast? = some 0) ↔ (bs.getLast? = some 0))) := by
  induction bs using utf8Decode.induct with
  | case1 =>
    intro cps h
    rw [utf8Decode_nil] at h
    cases h
    exact ⟨Iff.rfl, fun hne => absurd rfl hne⟩
  | case2 b rest hb ih =>
    intro cps h
    rw [utf8Decode_cons, if_pos hb] at h
    cases ht : utf8Decode rest with
    | none => rw [ht] at h; simp at h
    | some cps' =>
      rw [ht] at h
      simp only [Option.map_some', Option.some.injEq] at h
      subst h
      obtain ⟨hnil, hlast⟩ := ih cps' ht
      refine ⟨by simp, fun _ => ?_⟩
      by_cases htn : rest = []
      · subst htn
        have : cps' = [] := hnil.mpr rfl
        subst this
        simp
      · have hcps' : cps' ≠ [] := fun hc => htn (hnil.mp hc)
        rw [getLast?_cons_ne _ _ hcps', getLast?_cons_ne _ _ htn]
        exact hlast htn
  | case3 b rest h1 h2 =>
    intro cps h
    rw [utf8Decode_cons, if_neg h1, if_pos h2] at h
    cases h
  | case4 b h1 h2 h3 b2 t2 hc ih =>
    intro cps h
    rw [utf8Decode_cons, if_neg h1, if_neg h2, if_pos h3] at h
    dsimp only at h
    rw [if_pos hc] at h
    cases ht : utf8Decode t2 with
    | none => rw [ht] at h; simp at h
    | some cps' =>
      rw [ht] at h
      simp only [Option.map_some', Option.some.injEq] at h
      subst h
      obtain ⟨hnil, hlast⟩ := ih cps' ht
      have hcp : (b - 0xC0) <<< 6 + (b2 - 0x80) ≠ 0 :=
        utf8_cp2_ne_zero b b2 (Nat.le_of_not_lt h2)
      refine ⟨by simp, fun _ => ?_⟩
      by_cases htn : t2 = []
      · subst htn
        have : cps' = [] := hnil.mpr rfl
        subst this
        simp only [List.getLast?_cons_cons, List.getLast?_singleton, Option.some.injEq]
        constructor
        · intro hx; exact absurd hx hcp
        · intro hx; exact absurd (hx ▸ hc.1) (by decide)
      · have hcps' : cps' ≠ [] := fun hc2 => htn (hnil.mp hc2)
        rw [getLast?_cons_ne _ _ hcps', List.getLast?_cons_cons,
          getLast?_cons_ne _ _ htn]
        exact hlast htn
  | case5 b h1 h2 h3 b2 t2 hc =>
    intro cps h
    rw [utf8Decode_cons, if_neg h1, if_neg h2, if_pos h3] at h
    dsimp only at h
    rw [if_neg hc] at h
    cases h
  | case6 b h1 h2 h3 =>
    intro cps h
    rw [utf8Decode_cons, if_neg h1, if_neg h2, if_pos h3] at h
    dsimp only at h
    cases h
  | case7 b h1 h2 h3 h4 b2 b3 t3 hc ih =>
    intro cps h
    rw [utf8Decode_cons, if_neg h1, if_neg h2, if_neg h3, if_pos h4] at h
    dsimp only at h
    rw [if_pos hc] at h
    cases ht : utf8Decode t3 with
    | none => rw [ht] at h; simp at h
    | some cps' =>
      rw [ht] at h
      simp only [Option.map_some', Option.some.injEq] at h
      subst h
      obtain ⟨hnil, hlast⟩ := ih cps' ht
      obtain ⟨hbif, hb3, _⟩ := hc
      have hb2e : b = 0xE0 → 0xA0 ≤ b2 := by
        intro he; rw [if_pos he] at hbif; exact hbif.1
      have hb2ge : 0x80 ≤ b2 := by
        by_cases he : b = 0xE0
        · rw [if_pos he] at hbif; exact le_trans (by decide) hbif.1
        · rw [if_neg he] at hbif
          by_cases hd : b = 0xED
          · rw [if_pos hd] at hbif; exact hbif.1
          · rw [if_neg hd] at hbif; exact hbif.1
      have hcp : (b - 0xE0) <<< 12 + (b2 - 0x80) <<< 6 + (b3 - 0x80) ≠ 0 :=
        utf8_cp3_ne_zero b b2 b3 (Nat.le_of_not_lt h3) hb2ge hb2e
      refine ⟨by simp, fun _ => ?_⟩
      by_cases htn : t3 = []
      · subst htn
        have : cps' = [] := hnil.mpr rfl
        subst this
        simp only [List.getLast?_cons_cons, List.getLast?_singleton, Option.some.injEq]
        constructor
        · intro hx; exact absurd hx hcp
        · intro hx; exact absurd (hx ▸ hb3) (by decide)
      · have hcps' : cps' ≠ [] := fun hc2 => htn (hnil.mp hc2)
        rw [getLast?_cons_ne _ _ hcps', List.getLast?_cons_cons, List.getLast?_cons_cons,
          getLast?_cons_ne _ _ htn]
        exact hlast htn
  | case8 b h1 h2 h3 h4 b2 b3 t3 hc =>
    intro cps h
    rw [utf8Decode_cons, if_neg h1, if_neg h2, if_neg h3, if_pos h4] at h
    dsimp only at h
    rw [if_neg hc] at h
    cases h
  | case9 b rest h1 h2 h3 h4 hx =>
    intro cps h
    rw [utf8Decode_cons, if_neg h1, if_neg h2, if_neg h3, if_pos h4] at h
    cases rest with
    | nil => dsimp only at h; cases h
    | cons b2 r2 =>
      cases r2 with
      | nil => dsimp only at h; cases h
      | cons b3 t3 => exact absurd rfl (hx b2 b3 t3)
  | case10 b h1 h2 h3 h4 h5 b2 b3 b4 t4 hc ih =>
    intro cps h
    rw [utf8Decode_cons, if_neg h1, if_neg h2, if_neg h3, if_neg h4, if_pos h5] at h
    dsimp only at h
    rw [if_pos hc] at h
    cases ht : utf8Decode t4 with
    | none => rw [ht] at h; simp at h
    | some cps' =>
      rw [ht] at h
      simp only [Option.map_some', Option.some.injEq] at h
      subst h
      obtain ⟨hnil, hlast⟩ := ih cps' ht
      obtain ⟨hbif, _, _, hb4, _⟩ := hc
      have hb2e : b = 0xF0 → 0x90 ≤ b2 := by
        intro he; rw [if_pos he] at hbif; exact hbif.1
      have hb2ge : 0x80 ≤ b2 := by
        by_cases he : b = 0xF0
        · rw [if_pos he] at hbif; exact le_trans (by decide) hbif.1
        · rw [if_neg he] at hbif
          by_cases hd : b = 0xF4
          · rw [if_pos hd] at hbif; exact hbif.1
          · rw [if_neg hd] at hbif; exact hbif.1
      have hcp : (b - 0xF0) <<< 18 + (b2 - 0x80) <<< 12 + (b3 - 0x80) <<< 6 +
          (b4 - 0x80) ≠ 0 :=
        utf8_cp4_ne_zero b b2 b3 b4 (Nat.le_of_not_lt h4) hb2ge hb2e
      refine ⟨by simp, fun _ => ?_⟩
      by_cases htn : t4 = []
      · subst htn
        have : cps' = [] := hnil.mpr rfl
        subst this
        simp only [List.getLast?_cons_cons, List.getLast?_singleton, Option.some.injEq]
        constructor
        · intro hx2; exact absurd hx2 hcp
        · intro hx2; exact absurd (hx2 ▸ hb4) (by decide)
      · have hcps' : cps' ≠ [] := fun hc2 => htn (hnil.mp hc2)
        rw [getLast?_cons_ne _ _ hcps', List.getLast?_cons_cons, List.getLast?_cons_cons,
          List.getLast?_cons_cons, getLast?_cons_ne _ _ htn]
        exact hlast htn
  | case11 b h1 h2 h3 h4 h5 b2 b3 b4 t4 hc =>
    intro cps h
    rw [utf8Decode_cons, if_neg h1, if_neg h2, if_neg h3, if_neg h4, if_pos h5] at h
    dsimp only at h
    rw [if_neg hc] at h
    cases h
  | case12 b rest h1 h2 h3 h4 h5 hx =>
    intro cps h
    rw [utf8Decode_cons, if_neg h1, if_neg h2, if_neg h3, if_neg h4, if_pos h5] at h
    cases rest with
    | nil => dsimp only at h; cases h
    | cons b2 r2 =>
      cases r2 with
      | nil => dsimp only at h; cases h
      | cons b3 r3 =>
        cases r3 with
        | nil => dsimp only at h; cases h
        | cons b4 t4 => exact absurd rfl (hx b2 b3 b4 t4)
  | case13 b rest h1 h2 h3 h4 h5 =>
    intro cps h
    rw [utf8Decode_cons, if_neg h1, if_neg h2, if_neg h3, if_neg h4, if_neg h5] at h
    cases h

end MozReader

namespace MozReader.CacheMeta

theorem rdRaw_at (n : Nat) (d : List Byte) (p : Nat) (h : n ≤ d.length - p) :
    rdRaw n ⟨d, p⟩ = .ok ((d.drop p).take n, ⟨d, p + n⟩) := by
  unfold rdRaw
  rw [if_pos h]

theorem rdU32_at (d : List Byte) (p : Nat) (h : 4 ≤ d.length - p) :
    rdU32 ⟨d, p⟩ = .ok (beU ((d.drop p).take 4), ⟨d, p + 4⟩) := by
  unfold rdU32
  rw [rdRaw_at 4 d p h]
  rfl

theorem rdU16s_at (cc : Nat) : ∀ (p : Nat) (d : List Byte), 2 * cc ≤ d.length - p →
    ∃ vs, rdU16s cc ⟨d, p⟩ = .ok (vs, ⟨d, p + 2 * cc⟩) := by
  induction cc with
  | zero => intro p d h; exact ⟨[], rfl⟩
  | succ n ih =>
    intro p d h
    obtain ⟨vs, hvs⟩ := ih (p + 2) d (by omega)
    refine ⟨beU ((d.drop p).take 2) :: vs, ?_⟩
    show (do
      let (v, s') ← rdU16 ⟨d, p⟩
      let (vs, s'') ← rdU16s n s'
      pure (v :: vs, s'')) = _
    unfold rdU16
    rw [rdRaw_at 2 d p (by omega)]
    show (do
      let (vs2, s'') ← rdU16s n ⟨d, p + 2⟩
      pure (beU ((d.drop p).take 2) :: vs2, s'')) = _
    rw [hvs]
    show Except.ok (beU ((d.drop p).take 2) :: vs, (⟨d, p + 2 + 2 * n⟩ : ByteStream)) = _
    have harith : p + 2 + 2 * n = p + 2 * (n + 1) := by omega
    rw [harith]

theorem rdUtf8_at (n : Nat) (d : List Byte) (p : Nat) (h : n ≤ d.length - p) :
    rdUtf8 n ⟨d, p⟩ =
      match utf8Decode ((d.drop p).take n) with
      | some cps => .ok (cps, ⟨d, p + n⟩)
      | none => .error .badUtf8 := by
  unfold rdUtf8
  rw [rdRaw_at n d p h]
  rfl

end MozReader.CacheMeta

namespace MozReader.CacheMeta

theorem elementPairs_nil : elementPairs [] = .ok [] := rfl

theorem elementPairs_cons2 (n v : List Byte) (rest : List (List Byte)) :
    elementPairs (n :: v :: rest) =
      match asciiDecode n, asciiDecode v with
      | some nm, some vv =>
        (elementPairs rest).bind (fun tail => .ok ((asciiLower nm, vv) :: tail))
      | _, _ => .error .badAscii := rfl

theorem asciiDecode_some {bs : List Byte} {cps : List Nat}
    (h : asciiDecode bs = some cps) : bs.all (· < 0x80) = true ∧ cps = bs := by
  unfold asciiDecode at h
  by_cases hc : bs.all (· < 0x80) = true
  · rw [if_pos hc] at h
    exact ⟨hc, (Option.some.inj h).symm⟩
  · rw [if_neg hc] at h
    cases h

theorem elementPairs_cases : ∀ parts : List (List Byte), parts.length % 2 = 0 →
    if parts.all (fun part => part.all (· < 0x80))
    then ∃ ps, elementPairs parts = .ok ps
    else elementPairs parts = .error .badAscii := by
  intro parts
  induction parts using elementPairs.induct with
  | case1 => intro _; exact ⟨[], rfl⟩
  | case2 x =>
    intro hp
    simp only [List.length_cons, List.length_nil] at hp
    omega
  | case3 n v rest nm vv hav han ih =>
    intro hp
    have hrest : rest.length % 2 = 0 := by
      simp only [List.length_cons] at hp
      omega
    obtain ⟨hn, rfl⟩ := asciiDecode_some han
    obtain ⟨hv, rfl⟩ := asciiDecode_some hav
    rw [elementPairs_cons2, han, hav]
    have := ih hrest
    by_cases hr : rest.all (fun part => part.all (· < 0x80)) = true
    · rw [if_pos hr] at this
      obtain ⟨ps, hps⟩ := this
      have hall : (nm :: vv :: rest).all (fun part => part.all (· < 0x80)) = true := by
        simp only [List.all_cons, hn, hv, hr, Bool.and_self]
      rw [if_pos hall]
      exact ⟨(asciiLower nm, vv) :: ps, by rw [hps]; rfl⟩
    · rw [if_neg hr] at this
      have hall : ¬((nm :: vv :: rest).all (fun part => part.all (· < 0x80)) = true) := by
        simp only [List.all_cons, Bool.and_eq_true]
        intro hc
        exact hr hc.2.2
      rw [if_neg hall, this]
      rfl
  | case4 n v rest hx =>
    intro hp
    have hnv : ¬(n.all (· < 0x80) = true ∧ v.all (· < 0x80) = true) := by
      intro hc
      exact hx n v (by unfold asciiDecode; rw [if_pos hc.1])
        (by unfold asciiDecode; rw [if_pos hc.2])
    have hall : ¬((n :: v :: rest).all (fun part => part.all (· < 0x80)) = true) := by
      simp only [List.all_cons, Bool.and_eq_true]
      intro hc
      exact hnv ⟨hc.1, hc.2.1⟩
    rw [if_neg hall, elementPairs_cons2]
    cases hn : asciiDecode n with
    | none => rfl
    | some nm =>
      cases hv : asciiDecode v with
      | none => rfl
      | some vv => exact (hx nm vv hn hv).elim

end MozReader.CacheMeta

namespace MozReader.CacheMeta

theorem mbindOk {α β : Type} (a : α) (f : α → Except MetaErr β) :
    (Except.ok a >>= f) = f a := rfl

theorem mbindErr {α β : Type} (e : MetaErr) (f : α → Except MetaErr β) :
    ((Except.error e : Except MetaErr α) >>= f) = .error e := rfl

/-- A 46-byte metadata block (chunk count 0) on which every one of the
claim's four failure conditions is absent — version is 3, the key field
ends in NUL, the elements body ends in NUL and splits into an even number
of items — but whose one-byte key "x" is not a valid cache key. -/
def metaBytesBadKey : List Byte :=
  [0,0,0,0, 0,0,0,3, 0,0,0,1, 0,0,0,0, 0,0,0,0, 0,0,0,0, 0,0,0,0,
   0,0,0,1, 0,0,0,0, 120,0, 97,0,98,0, 0,0,0,9]

/-- A 45-byte metadata block (chunk count 0) with version 3, NUL-terminated
key ":u", final NUL, even elements, ASCII elements and a key that parses:
`from_reader` succeeds on it. -/
def metaBytesGood : List Byte :=
  [0,0,0,0, 0,0,0,3, 0,0,0,1, 0,0,0,0, 0,0,0,0, 0,0,0,0, 0,0,0,0,
   0,0,0,2, 0,0,0,0, 58,117,0, 0,0, 0,0,0,9]

/-- C6: decoding a metadata block that has enough bytes for every field
read fails on exactly the claim's four conditions PLUS three further ones
the code also checks: the key bytes must be valid UTF-8, every NUL-separated
element item must be ASCII, and the decoded key must parse as a cache key
(`CacheKey(key)` in the constructor call).  Decoding succeeds iff all seven
hold; the claim's four alone are not sufficient. -/
theorem C6_metadata_failure_iff (bytes : List Byte) (cc : Nat)
    (h : 41 + 2 * cc + metaKeySize bytes cc ≤ bytes.length) :
    (from_reader cc ⟨bytes, 0⟩).toBool = true ↔
    (versionIs3 bytes cc && keyNulOK bytes cc && finalNulOK bytes cc &&
     evenElemsOK bytes cc && keyUtf8OK bytes cc && elemsAsciiOK bytes cc &&
     keyParsesOK bytes cc) = true := by
  unfold from_reader
  rw [rdU32_at bytes 0 (by omega), mbindOk]
  rw [(by omega : (0 : Nat) + 4 = 4)]
  dsimp only
  obtain ⟨chunks, hchunks⟩ := rdU16s_at cc 4 bytes (by omega)
  rw [hchunks, mbindOk]
  dsimp only
  rw [rdU32_at bytes (4 + 2 * cc) (by omega), mbindOk]
  dsimp only
  have hfoldv : beU (List.take 4 (List.drop (4 + 2 * cc) bytes)) = versionField bytes cc := rfl
  rw [hfoldv]
  by_cases hv : versionField bytes cc = 3
  case neg =>
    rw [if_pos hv]
    have hvb : versionIs3 bytes cc = false := by
      unfold versionIs3
      simp only [beq_eq_false_iff_ne, ne_eq]
      exact hv
    rw [hvb]
    simp [Except.toBool]
  case pos =>
    rw [if_neg (not_not_intro hv)]
    have hvb : versionIs3 bytes cc = true := by
      unfold versionIs3
      exact beq_iff_eq.mpr hv
    rw [(by omega : 4 + 2 * cc + 4 = 8 + 2 * cc)]
    rw [rdU32_at bytes (8 + 2 * cc) (by omega), mbindOk]
    dsimp only
    rw [(by omega : 8 + 2 * cc + 4 = 12 + 2 * cc)]
    rw [rdU32_at bytes (12 + 2 * cc) (by omega), mbindOk]
    dsimp only
    rw [(by omega : 12 + 2 * cc + 4 = 16 + 2 * cc)]
    rw [rdU32_at bytes (16 + 2 * cc) (by omega), mbindOk]
    dsimp only
    rw [(by omega : 16 + 2 * cc + 4 = 20 + 2 * cc)]
    rw [rdRaw_at 4 bytes (20 + 2 * cc) (by omega), mbindOk]
    dsimp only
    rw [(by omega : 20 + 2 * cc + 4 = 24 + 2 * cc)]
    rw [rdU32_at bytes (24 + 2 * cc) (by omega), mbindOk]
    dsimp only
    rw [(by omega : 24 + 2 * cc + 4 = 28 + 2 * cc)]
    rw [rdU32_at bytes (28 + 2 * cc) (by omega), mbindOk]
    dsimp only
    have hfoldk : beU (List.take 4 (List.drop (28 + 2 * cc) bytes)) = metaKeySize bytes cc := rfl
    rw [hfoldk]
    rw [(by omega : 28 + 2 * cc + 4 = 32 + 2 * cc)]
    rw [rdU32_at bytes (32 + 2 * cc) (by omega), mbindOk]
    dsimp only
    rw [(by omega : 32 + 2 * cc + 4 = 36 + 2 * cc)]
    rw [rdUtf8_at (metaKeySize bytes cc + 1) bytes (36 + 2 * cc) (by omega)]
    have hfoldkf : List.take (metaKeySize bytes cc + 1) (List.drop (36 + 2 * cc) bytes) =
        keyField bytes cc := rfl
    rw [hfoldkf]
    have hkf : keyField bytes cc ≠ [] := by
      have hlen : (keyField bytes cc).length = metaKeySize bytes cc + 1 := by
        unfold keyField
        simp only [List.length_take, List.length_drop]
        omega
      intro hc
      rw [hc] at hlen
      simp at hlen
    cases hku : utf8Decode (keyField bytes cc) with
    | none =>
      have hkb : keyUtf8OK bytes cc = false := by
        unfold keyUtf8OK
        rw [hku]
        rfl
      rw [mbindErr, hkb]
      simp [Except.toBool]
    | some cps =>
      rw [mbindOk]
      dsimp only
      have hkb : keyUtf8OK bytes cc = true := by
        unfold keyUtf8OK
        rw [hku]
        rfl
      obtain ⟨hnil, hlast⟩ := utf8Decode_last (keyField bytes cc) cps hku
      have hiff := hlast hkf
      by_cases hkn : cps.getLast? = some 0
      case neg =>
        rw [if_pos hkn]
        have hknb : keyNulOK bytes cc = false := by
          unfold keyNulOK
          simp only [beq_eq_false_iff_ne, ne_eq]
          exact fun hb => hkn (hiff.mpr hb)
        rw [hknb]
        simp [Except.toBool]
      case pos =>
        rw [if_neg (not_not_intro hkn)]
        have hknb : keyNulOK bytes cc = true := by
          unfold keyNulOK
          exact beq_iff_eq.mpr (hiff.mp hkn)
        rw [(by omega : 36 + 2 * cc + (metaKeySize bytes cc + 1) =
          37 + 2 * cc + metaKeySize bytes cc)]
        unfold read_until_end
        dsimp only
        have hfoldr : List.drop (37 + 2 * cc + metaKeySize bytes cc) bytes =
            elementsRegion bytes cc := rfl
        rw [hfoldr]
        have hreg : (elementsRegion bytes cc).length =
            bytes.length - (37 + 2 * cc + metaKeySize bytes cc) := by
          unfold elementsRegion
          simp only [List.length_drop]
        rw [if_neg (by omega : ¬((elementsRegion bytes cc).length < 4))]
        have hfoldb : List.take ((elementsRegion bytes cc).length - 4)
            (elementsRegion bytes cc) = elementsBody bytes cc := rfl
        rw [hfoldb]
        by_cases hfn : (elementsBody bytes cc).getLast? = some 0
        case neg =>
          rw [if_pos hfn]
          have hfb : finalNulOK bytes cc = false := by
            unfold finalNulOK
            simp only [beq_eq_false_iff_ne, ne_eq]
            exact hfn
          rw [hfb]
          simp [Except.toBool]
        case pos =>
          rw [if_neg (not_not_intro hfn)]
          have hfb : finalNulOK bytes cc = true := by
            unfold finalNulOK
            exact beq_iff_eq.mpr hfn
          by_cases hev : ((elementsBody bytes cc).dropLast.splitOn 0).length % 2 = 0
          case neg =>
            rw [if_pos hev]
            have heb : evenElemsOK bytes cc = false := by
              unfold evenElemsOK
              simp only [beq_eq_false_iff_ne, ne_eq]
              exact hev
            rw [heb]
            simp [Except.toBool]
          case pos =>
            rw [if_neg (not_not_intro hev)]
            have heb : evenElemsOK bytes cc = true := by
              unfold evenElemsOK
              exact beq_iff_eq.mpr hev
            have hec := elementPairs_cases ((elementsBody bytes cc).dropLast.splitOn 0) hev
            by_cases hap : ((elementsBody bytes cc).dropLast.splitOn 0).all
                (fun part => part.all (· < 0x80)) = true
            case neg =>
              rw [if_neg hap] at hec
              have hab : elemsAsciiOK bytes cc = false := by
                unfold elemsAsciiOK
                exact Bool.eq_false_iff.mpr hap
              rw [hec, mbindErr, hab]
              simp [Except.toBool]
            case pos =>
              rw [if_pos hap] at hec
              obtain ⟨ps, hps⟩ := hec
              have hab : elemsAsciiOK bytes cc = true := by
                unfold elemsAsciiOK
                exact hap
              rw [hps, mbindOk]
              cases hpk : MozReader.CacheKey.parse cps.dropLast with
              | error e =>
                have hpb : keyParsesOK bytes cc = false := by
                  unfold keyParsesOK
                  rw [hku]
                  dsimp only
                  rw [hpk]
                  rfl
                rw [hpb]
                simp [Except.toBool]
              | ok ck =>
                have hpb : keyParsesOK bytes cc = true := by
                  unfold keyParsesOK
                  rw [hku]
                  dsimp only
                  rw [hpk]
                  rfl
                rw [hvb, hknb, hfb, heb, hkb, hab, hpb]
                exact Iff.rfl

end MozReader.CacheMeta

namespace MozReader.CacheMeta

/-- Witness for C6: the well-formed block satisfies the length hypothesis and
the proven equivalence holds on it. -/
theorem C6_metadata_failure_iff_witness :
    (41 + 2 * 0 + metaKeySize metaBytesGood 0 ≤ metaBytesGood.length) ∧
    ((from_reader 0 ⟨metaBytesGood, 0⟩).toBool = true ↔
      (versionIs3 metaBytesGood 0 && keyNulOK metaBytesGood 0 &&
       finalNulOK metaBytesGood 0 && evenElemsOK metaBytesGood 0 &&
       keyUtf8OK metaBytesGood 0 && elemsAsciiOK metaBytesGood 0 &&
       keyParsesOK metaBytesGood 0) = true) :=
  ⟨by decide, C6_metadata_failure_iff metaBytesGood 0 (by decide)⟩

/-- Counterexample to the claim's "a block with none of these defects decodes
successfully": on `metaBytesBadKey` all four claimed conditions are absent yet
`from_reader` fails with the bad-key error (`CacheKey` raises `ValueError`
on the key `"x"`). -/
theorem C6_metadata_counterexample :
    versionIs3 metaBytesBadKey 0 = true ∧ keyNulOK metaBytesBadKey 0 = true ∧
    finalNulOK metaBytesBadKey 0 = true ∧ evenElemsOK metaBytesBadKey 0 = true ∧
    from_reader 0 ⟨metaBytesBadKey, 0⟩ = .error .badKey :=
  ⟨by decide, by decide, by decide, by decide, by rfl⟩

end MozReader.CacheMeta
